import Mathlib

/-!
# TinyInfiniTensor: arena allocator, graph, scheduler, rewriter and shape inference

A shallow embedding of `src/core/allocator.cc`, `src/core/graph.cc`,
`src/operators/matmul.cc`, `src/operators/transpose.cc`,
`src/operators/concat.cc` and `src/utils/operator_utils.cc`, together with the
properties established about them.

Conventions
* `size_t` values are natural numbers below `SIZE_MOD = 2 ^ 64`; every
  arithmetic step of the source that can wrap is followed by `% SIZE_MOD`.
* Pointers to operators and tensors are natural numbers (object identity);
  the objects themselves live in heaps `opAt` and `tensorAt`.
* An `IT_ASSERT` that fails aborts the process; a call that aborts yields `none`.
* Indexing a vector outside its bounds is undefined behaviour in the source; the
  model then yields `Outcome.outOfRange` (shape inference) or `some none`
  (`optimize`), and no result.
-/

namespace infini

/-! ## Arena allocator (`src/core/allocator.cc`) -/

/-- Number of values of the C++ type `size_t` (64-bit unsigned). -/
def SIZE_MOD : Nat := 18446744073709551616

/-- Modelled from the spec: the type of the member `freeBlocks`, declared in the
absent header `core/allocator.h`.  The spec calls it "a registry of free byte
ranges keyed by address", and the source reads `it->first` as a block address
and `it->second` as a block size, so it is an ordered map from address to size
(`std::map<size_t, size_t>`): a list of `(address, size)` entries kept in
strictly increasing address order. -/
abbrev FreeBlocks := List (Nat × Nat)

/-- The class invariant of an ordered map: keys strictly increasing. -/
def FreeBlocks.WF (m : FreeBlocks) : Prop := m.Pairwise (fun x y => x.1 < y.1)

/-- Iterator returned by `std::map::lower_bound(k)`, as a position in the entry
list: the first entry whose key is not less than `k`; `m.length` is `end()`. -/
def FreeBlocks.lower_bound : FreeBlocks → Nat → Nat
  | [], _ => 0
  | e :: rest, k => if k ≤ e.1 then 0 else FreeBlocks.lower_bound rest k + 1

/-- Behaviour of `std::map::erase(it)`: drop the entry at position `it`. -/
def FreeBlocks.erase (m : FreeBlocks) (it : Nat) : FreeBlocks := m.eraseIdx it

/-- Behaviour of `std::map::emplace(k, v)`: insert in key order; an entry whose
key is already present is left untouched. -/
def FreeBlocks.emplace : FreeBlocks → Nat → Nat → FreeBlocks
  | [], k, v => [(k, v)]
  | e :: rest, k, v =>
    if k < e.1 then (k, v) :: e :: rest
    else if k = e.1 then e :: rest
    else e :: FreeBlocks.emplace rest k v

/-- State of an `Allocator` object.  `ptr = none` is the null pointer. -/
structure Allocator where
  used : Nat
  peak : Nat
  ptr : Option Nat
  alignment : Nat
  freeBlocks : FreeBlocks
  deriving DecidableEq, Repr

/-- The constructor `Allocator::Allocator`: `alignment = sizeof(uint64_t) = 8`. -/
def Allocator.new : Allocator :=
  { used := 0, peak := 0, ptr := none, alignment := 8, freeBlocks := [] }

/-- `Allocator::getAlignedSize`: `((size - 1) / alignment + 1) * alignment` in
`size_t` arithmetic. -/
def Allocator.getAlignedSize (a : Allocator) (size : Nat) : Nat :=
  ((((size + SIZE_MOD - 1) % SIZE_MOD) / a.alignment + 1) * a.alignment) % SIZE_MOD

/-- `Allocator::alloc`.  The result is `none` when the assertion aborts, and
otherwise the returned address together with the new state. -/
def Allocator.alloc (a0 : Allocator) (size0 : Nat) : Option (Nat × Allocator) :=
  let a : Allocator := { a0 with ptr := none }
  if a.ptr ≠ none then none
  else
    let size := a.getAlignedSize size0
    let it := a.freeBlocks.lower_bound size
    match a.freeBlocks[it]? with
    | some (blockAddr, blockSize) =>
      let erased := a.freeBlocks.erase it
      let blocks :=
        if blockSize > size then
          erased.emplace ((blockAddr + size) % SIZE_MOD) (blockSize - size)
        else erased
      let used := (a.used + size) % SIZE_MOD
      some (blockAddr, { a with freeBlocks := blocks, used := used, peak := max a.peak used })
    | none =>
      let addr := a.used
      let used := (a.used + size) % SIZE_MOD
      some (addr, { a with used := used, peak := max used a.peak })

/-- `Allocator::free`.  The result is `none` when the assertion aborts. -/
def Allocator.free (a : Allocator) (addr0 size0 : Nat) : Option Allocator :=
  if a.ptr ≠ none then none
  else
    let size1 := a.getAlignedSize size0
    let it := a.freeBlocks.lower_bound addr0
    let merged : Nat × Nat × FreeBlocks :=
      if it ≠ 0 then
        match a.freeBlocks[it - 1]? with
        | some (prevAddr, prevSize) =>
          if (prevAddr + prevSize) % SIZE_MOD = addr0 then
            (prevAddr, (size1 + prevSize) % SIZE_MOD, a.freeBlocks.erase (it - 1))
          else (addr0, size1, a.freeBlocks)
        | none => (addr0, size1, a.freeBlocks)
      else (addr0, size1, a.freeBlocks)
    let addr := merged.1
    let size2 := merged.2.1
    let blocks1 := merged.2.2
    let it2 := blocks1.lower_bound addr
    let merged2 : Nat × FreeBlocks :=
      match blocks1[it2]? with
      | some (nextAddr, nextSize) =>
        if (addr + size2) % SIZE_MOD = nextAddr then
          ((size2 + nextSize) % SIZE_MOD, blocks1.erase it2)
        else (size2, blocks1)
      | none => (size2, blocks1)
    let size := merged2.1
    let blocks := merged2.2.emplace addr size
    some { a with freeBlocks := blocks, used := (a.used + SIZE_MOD - size) % SIZE_MOD }

/-- `Allocator::getPtr`; `buf` is the non-null buffer address handed back by the
runtime collaborator (`runtime->alloc(peak)`). -/
def Allocator.getPtr (a : Allocator) (buf : Nat) : Nat × Allocator :=
  match a.ptr with
  | none => (buf, { a with ptr := some buf })
  | some p => (p, a)

/-! ## Graph and scheduler (`src/core/graph.cc`) -/

/-- A tensor node, as far as the graph code reads it: the operator producing it
(`getSource()`, `none` for the null pointer), its consumers (`getTargets()`),
its logical id (`getFuid()`) and its shape (`getDims()`).
Operators are referred to by identity. -/
structure TensorObj where
  source : Option Nat
  targets : List Nat
  fuid : Nat := 0
  dims : List Int := []
  deriving DecidableEq, Repr

/-- The operator kinds the graph code distinguishes (`getOpType()`); every other
kind is `Unknown`. -/
inductive OpType where
  | Unknown
  | MatMul
  | Transpose
  | Concat
  deriving DecidableEq, Repr

/-- An operator node: input and output tensors, the cached predecessor and
successor operators, the kind tag, and the kind-specific members read by the
graph code: `transposePermute` of a `TransposeObj` (`getPermute()`), `transA`
and `transB` of a `MatmulObj`.  Tensors are referred to by identity. -/
structure OperatorObj where
  inputs : List Nat
  outputs : List Nat
  predecessors : List Nat
  successors : List Nat
  type : OpType := OpType.Unknown
  permute : List Int := []
  transA : Bool := false
  transB : Bool := false
  deriving DecidableEq, Repr

/-- A graph: the object heaps (`tensorAt`, `opAt` dereference a pointer), the
member lists `tensors` and `ops`, and the flag `sorted`. -/
structure GraphObj where
  tensorAt : Nat → TensorObj
  opAt : Nat → OperatorObj
  tensors : List Nat
  ops : List Nat
  sorted : Bool

/-- The sources (producing operators, `none` for null) of the input tensors of
operator `op`, in input order: `input->getSource().get()` for each input. -/
def GraphObj.inputSources (g : GraphObj) (op : Nat) : List (Option Nat) :=
  (g.opAt op).inputs.map fun input => (g.tensorAt input).source

/-- The condition of the `if` inside the scan of `topo_sort`: `op` is not yet
flagged and every input has no source or a flagged source. -/
def GraphObj.topo_ready (g : GraphObj) (flags : List Nat) (op : Nat) : Bool :=
  !(flags.contains op) &&
    (g.inputSources op).all fun ptr =>
      match ptr with
      | none => true
      | some p => flags.contains p

/-- Loop state of `topo_sort`: the local `modified`, the local vector `sorted`
and the local set `flags`. -/
structure TopoState where
  modified : Bool
  sorted : List Nat
  flags : List Nat
  deriving DecidableEq, Repr

/-- The `for (auto const &op : ops)` scan of `topo_sort` over the remaining
operators `rest`. -/
def GraphObj.topo_scan (g : GraphObj) : List Nat → TopoState → TopoState
  | [], st => st
  | op :: rest, st =>
    if g.topo_ready st.flags op then
      g.topo_scan rest { modified := true, sorted := st.sorted ++ [op], flags := op :: st.flags }
    else g.topo_scan rest st

/-- The `while (sorted.size() < ops.size())` loop of `topo_sort`, bounded by
`fuel` iterations.  `none`: the bound was reached; `some none`: the loop left
through `return false`; `some (some l)`: the loop ended with `sorted = l`. -/
def GraphObj.topo_loop (g : GraphObj) : Nat → List Nat → List Nat → Option (Option (List Nat))
  | fuel, sorted, flags =>
    if sorted.length < g.ops.length then
      match fuel with
      | 0 => none
      | fuel + 1 =>
        let st := g.topo_scan g.ops { modified := false, sorted := sorted, flags := flags }
        if !st.modified then some none
        else g.topo_loop fuel st.sorted st.flags
    else some (some sorted)

/-- `GraphObj::topo_sort`: the returned boolean and the graph afterwards.  The
loop is run with `ops.size()` iterations of fuel (`topo_sort_total` shows that
this is always enough, so the result is never `none`). -/
def GraphObj.topo_sort (g : GraphObj) : Option (Bool × GraphObj) :=
  if g.sorted then some (true, g)
  else
    match g.topo_loop g.ops.length [] [] with
    | none => none
    | some none => some (false, g)
    | some (some l) => some (true, { g with ops := l, sorted := true })

/-! ## Matmul shape inference (`src/operators/matmul.cc`) -/

/-- The type `Shape` (declared in a header outside `src/`): a vector of `int`
dimension sizes.  A size is held as an integer; the code compares, copies and
takes the larger of two sizes, which needs no width, and where it adds two of
them (`ConcatObj::inferShape`) the model goes through `int_add`. -/
abbrev Shape := List Int

/-- The sum `x + y` of two `int` values as the machine computes it: the exact sum
reduced modulo `2 ^ 32` into the signed 32-bit range.  (A sum outside that range
is undefined behaviour in the source; two's-complement wrap-around is what the
addition instruction gives.) -/
def int_add (x y : Int) : Int := (x + y + 2147483648) % 4294967296 - 2147483648

/-- Outcome of a computation that may return `std::nullopt` or index a vector
outside its bounds (undefined behaviour in the source). -/
inductive Outcome (α : Type) where
  | ok (a : α)
  | nullopt
  | outOfRange
  deriving DecidableEq, Repr

/-- The batch loop `for (size_t i = 0; i < maxRank - 2; ++i)` of
`MatmulObj::inferShape`, with `n` iterations left, loop variable `i` and the
`outputShape` built so far.  The index `rankA - maxRank + i` is computed in
`size_t` arithmetic. -/
def MatmulObj.batchLoop (shapeA shapeB : Shape) (maxRank : Nat) :
    Nat → Nat → Shape → Outcome Shape
  | 0, _, outputShape => .ok outputShape
  | n + 1, i, outputShape =>
    let rankA := shapeA.length
    let rankB := shapeB.length
    let readA : Option Int :=
      if i < rankA then shapeA[(rankA + SIZE_MOD - maxRank + i) % SIZE_MOD]? else some 1
    let readB : Option Int :=
      if i < rankB then shapeB[(rankB + SIZE_MOD - maxRank + i) % SIZE_MOD]? else some 1
    match readA, readB with
    | some dimA, some dimB =>
      if dimA ≠ dimB ∧ dimA ≠ 1 ∧ dimB ≠ 1 then .nullopt
      else MatmulObj.batchLoop shapeA shapeB maxRank n (i + 1) (outputShape ++ [max dimA dimB])
    | _, _ => .outOfRange

/-- The `if / else if` chain of `MatmulObj::inferShape` over the four trailing
dimensions: the final values of `dimA_sec_Last` and `dimB_last`, or `none` for
the last `else` (`return std::nullopt`). -/
def MatmulObj.selectDims (dimA_last dimA_sec_Last dimB_last dimB_sec_Last : Int) :
    Option (Int × Int) :=
  if dimA_last = dimB_sec_Last then some (dimA_sec_Last, dimB_last)
  else if dimA_last = dimB_last then some (dimA_sec_Last, dimB_sec_Last)
  else if dimA_sec_Last = dimB_sec_Last then some (dimA_last, dimB_last)
  else if dimA_sec_Last = dimB_last then some (dimA_last, dimB_sec_Last)
  else none

/-- `MatmulObj::inferShape`, on the shapes (`getDims()`) of the input tensors. -/
def MatmulObj.inferShape (inputs : List Shape) : Outcome (List Shape) :=
  match inputs with
  | [shapeA, shapeB] =>
    let rankA := shapeA.length
    let rankB := shapeB.length
    if rankA < 2 ∨ rankB < 2 then .nullopt
    else
      match shapeA[rankA - 1]?, shapeA[rankA - 2]?, shapeB[rankB - 1]?, shapeB[rankB - 2]? with
      | some dimA_last, some dimA_sec_Last, some dimB_last, some dimB_sec_Last =>
        match MatmulObj.selectDims dimA_last dimA_sec_Last dimB_last dimB_sec_Last with
        | none => .nullopt
        | some (rows, cols) =>
          let maxRank := max rankA rankB
          match MatmulObj.batchLoop shapeA shapeB maxRank (maxRank - 2) 0 [] with
          | .ok outputShape => .ok [outputShape ++ [rows, cols]]
          | .nullopt => .nullopt
          | .outOfRange => .outOfRange
      | _, _, _, _ => .outOfRange
  | _ => .nullopt

/-! ## Allocator call sequences -/

/-- One call made on an allocator by its client. -/
inductive Allocator.Call where
  | alloc (size : Nat)
  | free (addr size : Nat)
  deriving DecidableEq, Repr

/-- Make the calls in order, starting from state `a`: the addresses returned by
the `alloc` calls (in call order) and the final state, or `none` if a call
aborts. -/
def Allocator.run : Allocator → List Allocator.Call → Option (List Nat × Allocator)
  | a, [] => some ([], a)
  | a, .alloc size :: calls =>
    match a.alloc size with
    | none => none
    | some (addr, a1) =>
      match Allocator.run a1 calls with
      | none => none
      | some (addrs, a2) => some (addr :: addrs, a2)
  | a, .free addr size :: calls =>
    match a.free addr size with
    | none => none
    | some a1 => Allocator.run a1 calls

/-! ## Ordering and cycles in a graph -/

/-- The producer/consumer relation among the operators of the graph: `p`
precedes `q` when both are in `ops` and some input tensor of `q` has `p` as its
source. -/
def GraphObj.precedes (g : GraphObj) (p q : Nat) : Prop :=
  p ∈ g.ops ∧ q ∈ g.ops ∧ some p ∈ g.inputSources q

/-- The producer/consumer relation contains a cycle: some operator is reachable
from itself along one or more `precedes` steps. -/
def GraphObj.HasCycle (g : GraphObj) : Prop :=
  ∃ q, Relation.TransGen g.precedes q q

/-- In the sequence `l`, every operator is at a strictly later position than the
producer of each of its input tensors: the producer occurs in `l` before it, and
nowhere at or after it. -/
def GraphObj.ProducersFirst (g : GraphObj) (l : List Nat) : Prop :=
  ∀ (i q : Nat), l[i]? = some q → ∀ p : Nat, some p ∈ g.inputSources q →
    (∃ j : Nat, j < i ∧ l[j]? = some p) ∧ ∀ j : Nat, l[j]? = some p → j < i

/-- Every source of an input tensor of a graph operator is itself a graph
operator (the first rule checked by `checkValid`). -/
def GraphObj.SourcesInOps (g : GraphObj) : Prop :=
  ∀ q ∈ g.ops, ∀ p, some p ∈ g.inputSources q → p ∈ g.ops

/-- What the scan of `topo_sort` maintains about its locals: `flags` holds
exactly the members of `sorted`, `sorted` has no repetition, consists of graph
operators, and lists every producer before its consumers. -/
structure TopoInv (g : GraphObj) (st : TopoState) : Prop where
  flags_iff : ∀ x, x ∈ st.flags ↔ x ∈ st.sorted
  nodup : st.sorted.Nodup
  sub : ∀ x ∈ st.sorted, x ∈ g.ops
  first : ∀ (i q : Nat), st.sorted[i]? = some q → ∀ p : Nat, some p ∈ g.inputSources q →
    ∃ j : Nat, j < i ∧ st.sorted[j]? = some p

/-! ## Example graphs -/

/-- An operator without inputs, outputs or neighbours; the content of every
unused heap cell in the example graphs. -/
def OperatorObj.blank : OperatorObj :=
  { inputs := [], outputs := [], predecessors := [], successors := [] }

/-- A tensor without source and targets; the content of every unused heap cell
in the example graphs. -/
def TensorObj.blank : TensorObj := { source := none, targets := [] }

/-- Example graph: a chain `op 10 → tensor 0 → op 11 → tensor 1 → op 12`, built
in the order `12, 11, 10`, never sorted. -/
def exampleChain : GraphObj :=
  { tensorAt := fun t =>
      match t with
      | 0 => { source := some 10, targets := [11] }
      | 1 => { source := some 11, targets := [12] }
      | 2 => { source := some 12, targets := [] }
      | _ => TensorObj.blank
    opAt := fun o =>
      match o with
      | 10 => { inputs := [], outputs := [0], predecessors := [], successors := [11] }
      | 11 => { inputs := [0], outputs := [1], predecessors := [10], successors := [12] }
      | 12 => { inputs := [1], outputs := [2], predecessors := [11], successors := [] }
      | _ => OperatorObj.blank
    tensors := [0, 1, 2]
    ops := [12, 11, 10]
    sorted := false }

/-- Example graph: operators 10 and 11 feed each other (tensor 0 goes from 10
to 11, tensor 1 from 11 to 10). -/
def exampleCycle : GraphObj :=
  { tensorAt := fun t =>
      match t with
      | 0 => { source := some 10, targets := [11] }
      | 1 => { source := some 11, targets := [10] }
      | _ => TensorObj.blank
    opAt := fun o =>
      match o with
      | 10 => { inputs := [1], outputs := [0], predecessors := [11], successors := [11] }
      | 11 => { inputs := [0], outputs := [1], predecessors := [10], successors := [10] }
      | _ => OperatorObj.blank
    tensors := [0, 1]
    ops := [10, 11]
    sorted := false }

/-- Example graph: the only operator, 11, reads tensor 0 whose source is
operator 10, and operator 10 is not in the operator list. -/
def exampleDangling : GraphObj :=
  { tensorAt := fun t =>
      match t with
      | 0 => { source := some 10, targets := [11] }
      | 1 => { source := some 11, targets := [] }
      | _ => TensorObj.blank
    opAt := fun o =>
      match o with
      | 11 => { inputs := [0], outputs := [1], predecessors := [], successors := [] }
      | _ => OperatorObj.blank
    tensors := [0, 1]
    ops := [11]
    sorted := false }

/-! ## Shape utilities (`src/utils/operator_utils.cc`) -/

/-- Conversion of a `size_t` value to `int` (`static_cast<int>(n)`, and the
implicit conversion in `int rank = A->getRank()`): the value modulo `2 ^ 32`,
read as a signed 32-bit number. -/
def static_cast_int (n : Nat) : Int :=
  ((n % 4294967296 + 2147483648) % 4294967296 : Nat) - 2147483648

/-- Conversion of an `int` value to `size_t` (`static_cast<size_t>(x)`, and the
implicit conversion of an `int` used as a vector index): the value modulo
`2 ^ 64`. -/
def static_cast_size_t (x : Int) : Nat := (x % (SIZE_MOD : Int)).toNat

/-- The loop of `infer_broadcast`, with `n` iterations left, loop variable `i`
and the current `resultShape`; `none` is the early `return {}`. -/
def infer_broadcast_loop (reversedA reversedB : Shape) : Nat → Nat → Shape → Option Shape
  | 0, _, resultShape => some resultShape
  | n + 1, i, resultShape =>
    let dimA : Int := if h : i < reversedA.length then reversedA[i] else 1
    let dimB : Int := if h : i < reversedB.length then reversedB[i] else 1
    if dimA ≠ dimB ∧ dimA ≠ 1 ∧ dimB ≠ 1 then none
    else infer_broadcast_loop reversedA reversedB n (i + 1) (resultShape.set i (max dimA dimB))

/-- `infer_broadcast`. -/
def infer_broadcast (A B : Shape) : Shape :=
  let rankA := A.length
  let rankB := B.length
  let maxRank := max rankA rankB
  let reversedA := A.reverse
  let reversedB := B.reverse
  match infer_broadcast_loop reversedA reversedB maxRank 0 (List.replicate maxRank 0) with
  | none => []
  | some resultShape => resultShape.reverse

/-- `get_real_axis`; `none` when one of the two assertions aborts. -/
def get_real_axis (axis rank : Int) : Option Int :=
  if ¬ (rank ≥ 1) then none
  else if ¬ (axis ≥ -rank ∧ axis ≤ rank - 1) then none
  else if axis < 0 then some (rank + axis)
  else some axis

/-! ## Transpose and Concat shape inference (`src/operators/transpose.cc`,
`src/operators/concat.cc`) -/

/-- The loop `for (int i = 0; i < rank; i++)` of `TransposeObj::inferShape`, with
`n` iterations left, loop variable `i` and the current `output_dim`; `none` when
a vector is indexed outside its bounds. -/
def TransposeObj.permuteLoop (transposePermute : List Int) (input_dim : Shape) :
    Nat → Nat → Shape → Option Shape
  | 0, _, output_dim => some output_dim
  | n + 1, i, output_dim =>
    match transposePermute[i]?, input_dim[i]? with
    | some p, some d =>
      if static_cast_size_t p < output_dim.length then
        TransposeObj.permuteLoop transposePermute input_dim n (i + 1)
          (output_dim.set (static_cast_size_t p) d)
      else none
    | _, _ => none

/-- `TransposeObj::inferShape`, for an operator whose member `transposePermute`
is the given list, on the shapes of the input tensors. -/
def TransposeObj.inferShape (transposePermute : List Int) (inputs : List Shape) :
    Outcome (List Shape) :=
  match inputs[0]? with
  | none => .outOfRange
  | some input_dim =>
    let rank : Int := static_cast_int input_dim.length
    if static_cast_int transposePermute.length ≠ rank then .nullopt
    else
      match TransposeObj.permuteLoop transposePermute input_dim rank.toNat 0 input_dim with
      | some output_dim => .ok [output_dim]
      | none => .outOfRange

/-- The inner loop `for (size_t j = 0; j < rank; ++j)` of `ConcatObj::inferShape`
for one further input shape, with `n` iterations left, loop variable `j` and the
current `dims`; `none` when a vector is indexed outside its bounds. -/
def ConcatObj.axisLoop (dim : Int) (inputShape : Shape) : Nat → Nat → Shape → Option Shape
  | 0, _, dims => some dims
  | n + 1, j, dims =>
    if j = static_cast_size_t dim then
      match dims[j]?, inputShape[j]? with
      | some x, some y =>
        ConcatObj.axisLoop dim inputShape n (j + 1) (dims.set j (int_add x y))
      | _, _ => none
    else ConcatObj.axisLoop dim inputShape n (j + 1) dims

/-- The outer loop `for (size_t i = 1; i < inputs.size(); ++i)` of
`ConcatObj::inferShape` over the inputs after the first. -/
def ConcatObj.inputLoop (dim : Int) (rank : Nat) : List Shape → Shape → Option Shape
  | [], dims => some dims
  | inputShape :: rest, dims =>
    match ConcatObj.axisLoop dim inputShape rank 0 dims with
    | some dims1 => ConcatObj.inputLoop dim rank rest dims1
    | none => none

/-- `ConcatObj::inferShape`, for an operator whose member `dim` (the concat axis
fixed by the constructor through `get_real_axis`) is the given number, on the
shapes of the input tensors. -/
def ConcatObj.inferShape (dim : Int) (inputs : List Shape) : Outcome (List Shape) :=
  match inputs with
  | [] => .outOfRange
  | first :: rest =>
    match ConcatObj.inputLoop dim first.length rest first with
    | some dims => .ok [dims]
    | none => .outOfRange

/-- The right-aligned form of a shape among shapes of rank at most `n`: padded on
the left with 1s up to length `n`. -/
def Shape.rightAligned (n : Nat) (s : Shape) : Shape := List.replicate (n - s.length) 1 ++ s

/-- The broadcast of two shapes as the specification words it: right-align the
two shapes; if on some axis the sizes differ and neither is 1 the result is the
empty shape, otherwise every axis of the result is the larger of the two sizes. -/
def infer_broadcast_spec (A B : Shape) : Shape :=
  let n := max A.length B.length
  let alignedA := Shape.rightAligned n A
  let alignedB := Shape.rightAligned n B
  if (List.zip alignedA alignedB).any (fun p => p.1 ≠ p.2 ∧ p.1 ≠ 1 ∧ p.2 ≠ 1) then []
  else List.zipWith max alignedA alignedB

/-! ## Graph construction, validation and rewriting (`src/core/graph.cc`)

The methods of `TensorObj`, `OperatorObj` and `GraphObj` that `graph.cc` calls
but that are defined in headers outside `src/` are modelled below from their
names and from the way the specification describes the adjacency they maintain.
Each takes the graph (for its heaps) and returns the graph afterwards. -/

/-- Store `v` as the tensor object at address `t`. -/
def GraphObj.setTensor (g : GraphObj) (t : Nat) (v : TensorObj) : GraphObj :=
  { g with tensorAt := fun x => if x = t then v else g.tensorAt x }

/-- Store `v` as the operator object at address `o`. -/
def GraphObj.setOp (g : GraphObj) (o : Nat) (v : OperatorObj) : GraphObj :=
  { g with opAt := fun x => if x = o then v else g.opAt x }

/-- Modelled from the spec: `TensorObj::addTarget` (absent header): register `op`
as a consumer of tensor `t`. -/
def GraphObj.addTarget (g : GraphObj) (t op : Nat) : GraphObj :=
  g.setTensor t { g.tensorAt t with targets := (g.tensorAt t).targets ++ [op] }

/-- Modelled from the spec: `TensorObj::removeTarget` (absent header): `op` is no
longer a consumer of tensor `t`. -/
def GraphObj.removeTarget (g : GraphObj) (t op : Nat) : GraphObj :=
  g.setTensor t { g.tensorAt t with targets := (g.tensorAt t).targets.filter (fun x => x ≠ op) }

/-- Modelled from the spec: `TensorObj::setSource` (absent header): make `src`
(`none` for `nullptr`) the producer of tensor `t`. -/
def GraphObj.setSource (g : GraphObj) (t : Nat) (src : Option Nat) : GraphObj :=
  g.setTensor t { g.tensorAt t with source := src }

/-- Modelled from the spec: `OperatorObj::addPredecessors` (absent header): add a
predecessor edge on operator `o`. -/
def GraphObj.addPredecessors (g : GraphObj) (o pred : Nat) : GraphObj :=
  g.setOp o { g.opAt o with predecessors := (g.opAt o).predecessors ++ [pred] }

/-- Modelled from the spec: `OperatorObj::addSuccessors` (absent header): add a
successor edge on operator `o`. -/
def GraphObj.addSuccessors (g : GraphObj) (o succ : Nat) : GraphObj :=
  g.setOp o { g.opAt o with successors := (g.opAt o).successors ++ [succ] }

/-- Modelled from the spec: `OperatorObj::removePredecessors` (absent header):
prune the predecessor edges from `pred` on operator `o`. -/
def GraphObj.removePredecessors (g : GraphObj) (o pred : Nat) : GraphObj :=
  g.setOp o { g.opAt o with
    predecessors := (g.opAt o).predecessors.filter (fun x => x ≠ pred) }

/-- Modelled from the spec: `OperatorObj::removeSuccessors` (absent header):
prune the successor edges to `succ` on operator `o`. -/
def GraphObj.removeSuccessors (g : GraphObj) (o succ : Nat) : GraphObj :=
  g.setOp o { g.opAt o with successors := (g.opAt o).successors.filter (fun x => x ≠ succ) }

/-- Modelled from the spec: `OperatorObj::replaceInput` (absent header): operator
`o` reads tensor `t2` wherever it read tensor `t1`. -/
def GraphObj.replaceInput (g : GraphObj) (o t1 t2 : Nat) : GraphObj :=
  g.setOp o { g.opAt o with inputs := (g.opAt o).inputs.map (fun t => if t = t1 then t2 else t) }

/-- Modelled from the spec: `MatmulObj::setTransA` (absent header). -/
def GraphObj.setTransA (g : GraphObj) (o : Nat) (b : Bool) : GraphObj :=
  g.setOp o { g.opAt o with transA := b }

/-- Modelled from the spec: `MatmulObj::setTransB` (absent header). -/
def GraphObj.setTransB (g : GraphObj) (o : Nat) (b : Bool) : GraphObj :=
  g.setOp o { g.opAt o with transB := b }

/-- Modelled from the spec: `GraphObj::removeTensor` (absent header): the tensor
is removed from the graph's tensor list. -/
def GraphObj.removeTensor (g : GraphObj) (t : Nat) : GraphObj :=
  { g with tensors := g.tensors.erase t }

/-- Modelled from the spec: `GraphObj::removeOperator` (absent header): the
operator is removed from the graph's operator list. -/
def GraphObj.removeOperator (g : GraphObj) (o : Nat) : GraphObj :=
  { g with ops := g.ops.erase o }

/-- Body of the first loop of `addOperatorAndConnect` for one input tensor. -/
def GraphObj.connectInput (g : GraphObj) (op input : Nat) : GraphObj :=
  let g1 := g.addTarget input op
  match (g1.tensorAt input).source with
  | some pred => (g1.addSuccessors pred op).addPredecessors op pred
  | none => g1

/-- Body of the second loop of `addOperatorAndConnect` for one output tensor. -/
def GraphObj.connectOutput (g : GraphObj) (op output : Nat) : GraphObj :=
  let g1 := g.setSource output (some op)
  (g1.tensorAt output).targets.foldl
    (fun h succ => (h.addPredecessors succ op).addSuccessors op succ) g1

/-- `GraphObj::addOperatorAndConnect`, for the operator object at address `op`. -/
def GraphObj.addOperatorAndConnect (g : GraphObj) (op : Nat) : GraphObj :=
  let g0 : GraphObj := { g with sorted := false, ops := g.ops ++ [op] }
  let g1 := (g0.opAt op).inputs.foldl (fun h input => h.connectInput op input) g0
  (g1.opAt op).outputs.foldl (fun h output => h.connectOutput op output) g1

/-- `GraphObj::addTensor(Shape dim, DataType dtype)`: a tensor object is
constructed at the fresh address `ptr` and appended to the tensor list.
Modelled from the spec: the constructor of `TensorObj` (absent source) yields a
"freshly constructed, unconnected tensor": no source, no targets; `fuid` is the
logical id it draws. -/
def GraphObj.addTensor (g : GraphObj) (ptr : Nat) (dim : Shape) (fuid : Nat) : GraphObj :=
  { g.setTensor ptr { source := none, targets := [], fuid := fuid, dims := dim } with
    tensors := g.tensors ++ [ptr] }

/-- The assertions of the first loop of `checkValid` for one tensor. -/
def GraphObj.checkTensor (g : GraphObj) (tensor : Nat) : Bool :=
  !((g.tensorAt tensor).targets.length = 0 ∧ (g.tensorAt tensor).source = none) &&
  (g.tensorAt tensor).targets.all (fun op => g.ops.contains op) &&
  (match (g.tensorAt tensor).source with
   | some op => g.ops.contains op
   | none => true)

/-- The assertions of the second loop of `checkValid` for one operator. -/
def GraphObj.checkOp (g : GraphObj) (op : Nat) : Bool :=
  (g.opAt op).inputs.all (fun tensor => g.tensors.contains tensor) &&
  (g.opAt op).outputs.all (fun tensor => g.tensors.contains tensor) &&
  (g.opAt op).predecessors.all (fun pre => g.ops.contains pre) &&
  (g.opAt op).successors.all (fun suc => g.ops.contains suc)

/-- The third loop of `checkValid`, over the remaining tensors, with the set `s`
of logical ids seen so far: `false` when the assertion `cnt == 0` fails. -/
def GraphObj.checkFuids (g : GraphObj) : List Nat → List Nat → Bool
  | [], _ => true
  | tensor :: rest, s =>
    if s.contains (g.tensorAt tensor).fuid then false
    else GraphObj.checkFuids g rest ((g.tensorAt tensor).fuid :: s)

/-- `GraphObj::checkValid`: `none` when an assertion aborts, otherwise the
returned value, which is always `true`. -/
def GraphObj.checkValid (g : GraphObj) : Option Bool :=
  if ¬ g.tensors.all (fun tensor => g.checkTensor tensor) then none
  else if ¬ g.ops.all (fun op => g.checkOp op) then none
  else if ¬ g.checkFuids g.tensors [] then none
  else some true

/-- Graph `h` arises from graph `g` by steps of `addOperatorAndConnect` for
operator `op`: consumer, predecessor and successor lists have only grown, input
and output lists, the operator list and the flag are the same, and a tensor's
source is the same or has become `op`. -/
structure GraphObj.Extends (op : Nat) (g h : GraphObj) : Prop where
  targets : ∀ t x, x ∈ (g.tensorAt t).targets → x ∈ (h.tensorAt t).targets
  preds : ∀ o x, x ∈ (g.opAt o).predecessors → x ∈ (h.opAt o).predecessors
  succs : ∀ o x, x ∈ (g.opAt o).successors → x ∈ (h.opAt o).successors
  inputs : ∀ o, (h.opAt o).inputs = (g.opAt o).inputs
  outputs : ∀ o, (h.opAt o).outputs = (g.opAt o).outputs
  source : ∀ t, (h.tensorAt t).source = (g.tensorAt t).source ∨
    (h.tensorAt t).source = some op
  ops : h.ops = g.ops
  sorted : h.sorted = g.sorted

/-! ### The rewriter `GraphObj::optimize`

An iterator into `ops` is a position; erasing an element leaves the position
number of a live iterator unchanged (what a `std::vector` iterator does in
practice).  A loop over `getInputs()`, `getOutputs()`, `getTargets()`,
`getPredecessors()` or `getSuccessors()` runs over the list as it is when the
loop starts. -/

/-- The test `v[rank - 1] == static_cast<int>(rank - 2) &&
v[rank - 2] == static_cast<int>(rank - 1)` of `optimize` on a permutation vector,
with `rank - 1` and `rank - 2` in `size_t` arithmetic and `&&` short-circuiting;
`none` when `v` is indexed outside its bounds. -/
def swapsLastTwo (v : List Int) (rank : Nat) : Option Bool :=
  match v[(rank + SIZE_MOD - 1) % SIZE_MOD]? with
  | none => none
  | some x =>
    if x = static_cast_int ((rank + SIZE_MOD - 2) % SIZE_MOD) then
      match v[(rank + SIZE_MOD - 2) % SIZE_MOD]? with
      | none => none
      | some y => some (decide (y = static_cast_int ((rank + SIZE_MOD - 1) % SIZE_MOD)))
    else some false

/-- The loop `for (auto &input : T->getInputs()) input->removeTarget(T)`. -/
def GraphObj.detachInputs (g : GraphObj) (T : Nat) : GraphObj :=
  (g.opAt T).inputs.foldl (fun h input => h.removeTarget input T) g

/-- The loop `for (auto &target : output->getTargets())` with the body
`target->removePredecessors(T); target->replaceInput(output, keep->getInputs()[0])`,
over the remaining targets; `none` when `keep` has no input. -/
def GraphObj.bypassTargets (T output keep : Nat) : List Nat → GraphObj → Option GraphObj
  | [], g => some g
  | target :: rest, g =>
    let g1 := g.removePredecessors target T
    match (g1.opAt keep).inputs[0]? with
    | none => none
    | some x => GraphObj.bypassTargets T output keep rest (g1.replaceInput target output x)

/-- The loop `for (auto &output : T->getOutputs())` with the body
`output->setSource(nullptr)` followed by the loop over the output's targets,
over the remaining outputs. -/
def GraphObj.bypassOutputs (T keep : Nat) : List Nat → GraphObj → Option GraphObj
  | [], g => some g
  | output :: rest, g =>
    let g1 := g.setSource output none
    match GraphObj.bypassTargets T output keep (g1.tensorAt output).targets g1 with
    | none => none
    | some g2 => GraphObj.bypassOutputs T keep rest g2

/-- The loop `for (auto &predecessor : T->getPredecessors())
predecessor->removeSuccessors(T)`. -/
def GraphObj.unlinkPredecessors (g : GraphObj) (T : Nat) : GraphObj :=
  (g.opAt T).predecessors.foldl (fun h predecessor => h.removeSuccessors predecessor T) g

/-- The loop `for (auto &successor : T->getSuccessors())
successor->removePredecessors(T)`. -/
def GraphObj.unlinkSuccessors (g : GraphObj) (T : Nat) : GraphObj :=
  (g.opAt T).successors.foldl (fun h successor => h.removePredecessors successor T) g

/-- The rewrite of the double-transpose rule (lines 125-187 of `graph.cc`) for
the operators `T1 = *it` and `T2 = *nextIt`; `none` when a vector is indexed
outside its bounds. -/
def GraphObj.eliminatePair (g : GraphObj) (T1 T2 : Nat) : Option GraphObj := do
  let g1 := g.detachInputs T1
  let g2 := g1.detachInputs T2
  let g3 ← GraphObj.bypassOutputs T2 T1 (g2.opAt T2).outputs g2
  let g4 ← GraphObj.bypassOutputs T1 T1 (g3.opAt T1).outputs g3
  let g5 := g4.unlinkPredecessors T1
  let g6 := g5.unlinkPredecessors T2
  let g7 := g6.unlinkSuccessors T1
  let g8 := g7.unlinkSuccessors T2
  let out2 ← (g8.opAt T2).outputs[0]?
  let g9 := g8.removeTensor out2
  let out1 ← (g9.opAt T1).outputs[0]?
  let g10 := g9.removeTensor out1
  let g11 := g10.removeOperator T2
  pure (g11.removeOperator T1)

/-- The rewrite of the transpose-into-matmul rule for the Matmul `M` and the
Transpose `T` producing its first (`first = true`, lines 207-243 of `graph.cc`)
or second (`first = false`, lines 257-291) operand; `none` when a vector is
indexed outside its bounds. -/
def GraphObj.fuseTranspose (g : GraphObj) (M T : Nat) (first : Bool) : Option GraphObj := do
  let g1 := if first then g.setTransA M true else g.setTransB M true
  let g2 := g1.detachInputs T
  let g3 ← GraphObj.bypassOutputs T T (g2.opAt T).outputs g2
  let g4 := g3.unlinkPredecessors T
  let g5 := g4.unlinkSuccessors T
  let out ← (g5.opAt T).outputs[0]?
  let g6 := g5.removeTensor out
  pure (g6.removeOperator T)

/-- The double-transpose part of the loop body of `optimize` (lines 107-191) with
`cur = *it`.  `none`: a vector is indexed outside its bounds; `some none`: the
rule does not fire; `some (some h)`: the rule fired, `h` is the graph at the
`continue`. -/
def GraphObj.tryRuleA (g : GraphObj) (it cur : Nat) : Option (Option GraphObj) :=
  if (g.opAt cur).type = OpType.Transpose then
    let permutation := (g.opAt cur).permute
    let rank := permutation.length
    match g.ops[it + 1]? with
    | none => some none
    | some next =>
      if (g.opAt next).type = OpType.Transpose then
        let nextPermutation := (g.opAt next).permute
        if rank = nextPermutation.length then
          match swapsLastTwo permutation rank with
          | none => none
          | some false => some none
          | some true =>
            match swapsLastTwo nextPermutation rank with
            | none => none
            | some false => some none
            | some true =>
              match g.eliminatePair cur next with
              | none => none
              | some h => some (some h)
        else some none
      else some none
  else some none

/-- The test of lines 201-205 (and 250-255) of `optimize`: the tensor `input` of
the Matmul has a source, that source is a Transpose, the Matmul's flag `trans`
is false, and the permutation has rank at least 2 and passes `swapsLastTwo`.
The result is the source when the rule fires. -/
def GraphObj.fusableSource (g : GraphObj) (input : Nat) (trans : Bool) :
    Option (Option Nat) :=
  match (g.tensorAt input).source with
  | none => some none
  | some source =>
    if (g.opAt source).type = OpType.Transpose ∧ trans = false then
      let permutation := (g.opAt source).permute
      let rank := permutation.length
      if rank ≥ 2 then
        match swapsLastTwo permutation rank with
        | none => none
        | some true => some (some source)
        | some false => some none
      else some none
    else some none

/-- The Matmul part of the loop body of `optimize` (lines 192-295) with
`cur = *it`; results as for `tryRuleA`. -/
def GraphObj.tryRuleB (g : GraphObj) (cur : Nat) : Option (Option GraphObj) :=
  if (g.opAt cur).type = OpType.MatMul then
    match (g.opAt cur).inputs[0]?, (g.opAt cur).inputs[1]? with
    | some inputA, some inputB =>
      match g.fusableSource inputA (g.opAt cur).transA with
      | none => none
      | some (some sourceA) =>
        match g.fuseTranspose cur sourceA true with
        | none => none
        | some h => some (some h)
      | some none =>
        match g.fusableSource inputB (g.opAt cur).transB with
        | none => none
        | some (some sourceB) =>
          match g.fuseTranspose cur sourceB false with
          | none => none
          | some h => some (some h)
        | some none => some none
    | _, _ => none
  else some none

/-- The `while (it != ops.end())` loop of `optimize`, bounded by `fuel`
iterations.  `none`: the bound was reached; `some none`: a vector was indexed
outside its bounds; `some (some h)`: the loop ended with graph `h`. -/
def GraphObj.optimize_loop : Nat → Nat → GraphObj → Option (Option GraphObj)
  | 0, _, _ => none
  | fuel + 1, it, g =>
    match g.ops[it]? with
    | none => some (some g)
    | some cur =>
      match g.tryRuleA it cur with
      | none => some none
      | some (some h) => GraphObj.optimize_loop fuel it h
      | some none =>
        match g.tryRuleB cur with
        | none => some none
        | some (some h) => GraphObj.optimize_loop fuel it h
        | some none => GraphObj.optimize_loop fuel (it + 1) g

/-- `GraphObj::optimize`: the loop, then `topo_sort()` (whose returned flag is
dropped).  The loop gets `3 * ops.size() + 3` iterations: every iteration
advances `it`, removes an operator or sets a transpose flag
(`optimize_loop_ne_none` shows that this is always enough, so the result is
never `none`).  Results as for `optimize_loop`. -/
def GraphObj.optimize (g : GraphObj) : Option (Option GraphObj) :=
  match GraphObj.optimize_loop (3 * g.ops.length + 3) 0 g with
  | none => none
  | some none => some none
  | some (some h) =>
    match h.topo_sort with
    | none => none
    | some r => some (some r.2)

/-- What is observed of a graph after a rewrite: the operator list, the tensor
list, and the objects at the given tensor and operator addresses. -/
def GraphObj.observe (g : GraphObj) (ts os : List Nat) :
    List Nat × List Nat × List TensorObj × List OperatorObj :=
  (g.ops, g.tensors, ts.map g.tensorAt, os.map g.opAt)

/-- Example graph `X -> T1 -> T2 -> Y`: tensor 0 (`X`, a graph input) is read by
Transpose 10 with permutation `perm1`, whose output tensor 1 is read by Transpose
11 with permutation `perm2`, whose output tensor 2 is read by operator 12 (`Y`,
of another kind) producing tensor 3.  Adjacency as `addOperatorAndConnect`
leaves it; the operator list is in topological order and flagged sorted. -/
def exampleDoubleTranspose (perm1 perm2 : List Int) : GraphObj :=
  { tensorAt := fun t =>
      match t with
      | 0 => { source := none, targets := [10], fuid := 0 }
      | 1 => { source := some 10, targets := [11], fuid := 1 }
      | 2 => { source := some 11, targets := [12], fuid := 2 }
      | 3 => { source := some 12, targets := [], fuid := 3 }
      | _ => TensorObj.blank
    opAt := fun o =>
      match o with
      | 10 => { inputs := [0], outputs := [1], predecessors := [], successors := [11],
                type := OpType.Transpose, permute := perm1 }
      | 11 => { inputs := [1], outputs := [2], predecessors := [10], successors := [12],
                type := OpType.Transpose, permute := perm2 }
      | 12 => { inputs := [2], outputs := [3], predecessors := [11], successors := [] }
      | _ => OperatorObj.blank
    tensors := [0, 1, 2, 3]
    ops := [10, 11, 12]
    sorted := true }

/-- Example graph `X -> T -> M` with other operand `Z`: tensor 0 (`X`) is read by
Transpose 10 with permutation `perm`, whose output tensor 2 is the first operand
of Matmul 11 (`transA = false`, `transB = b`); the second operand is tensor 1
(`Z`); the Matmul produces tensor 3.  `X` and `Z` are graph inputs. -/
def exampleFuseA (perm : List Int) (b : Bool) : GraphObj :=
  { tensorAt := fun t =>
      match t with
      | 0 => { source := none, targets := [10], fuid := 0 }
      | 1 => { source := none, targets := [11], fuid := 1 }
      | 2 => { source := some 10, targets := [11], fuid := 2 }
      | 3 => { source := some 11, targets := [], fuid := 3 }
      | _ => TensorObj.blank
    opAt := fun o =>
      match o with
      | 10 => { inputs := [0], outputs := [2], predecessors := [], successors := [11],
                type := OpType.Transpose, permute := perm }
      | 11 => { inputs := [2, 1], outputs := [3], predecessors := [10], successors := [],
                type := OpType.MatMul, transA := false, transB := b }
      | _ => OperatorObj.blank
    tensors := [0, 1, 2, 3]
    ops := [10, 11]
    sorted := true }

/-- Example graph as `exampleFuseA`, with the Transpose feeding the second
operand of the Matmul (`transA = a`, `transB = false`): its inputs are tensor 1
(`Z`) and tensor 2. -/
def exampleFuseB (perm : List Int) (a : Bool) : GraphObj :=
  { tensorAt := fun t =>
      match t with
      | 0 => { source := none, targets := [10], fuid := 0 }
      | 1 => { source := none, targets := [11], fuid := 1 }
      | 2 => { source := some 10, targets := [11], fuid := 2 }
      | 3 => { source := some 11, targets := [], fuid := 3 }
      | _ => TensorObj.blank
    opAt := fun o =>
      match o with
      | 10 => { inputs := [0], outputs := [2], predecessors := [], successors := [11],
                type := OpType.Transpose, permute := perm }
      | 11 => { inputs := [1, 2], outputs := [3], predecessors := [10], successors := [],
                type := OpType.MatMul, transA := a, transB := false }
      | _ => OperatorObj.blank
    tensors := [0, 1, 2, 3]
    ops := [10, 11]
    sorted := true }

/-- Graph `h` has the operator list and the transpose flags of graph `g`: what
the steps of a rewrite other than `removeOperator`, `setTransA` and `setTransB`
leave untouched. -/
structure GraphObj.KeepsFlags (g h : GraphObj) : Prop where
  ops : h.ops = g.ops
  transA : ∀ o, (h.opAt o).transA = (g.opAt o).transA
  transB : ∀ o, (h.opAt o).transB = (g.opAt o).transB

/-- The quantity that decreases with every iteration of the loop of `optimize`:
three for every operator from position `it` on, plus one for every transpose
flag of the operator at `it` that is still false. -/
def GraphObj.optimize_measure (g : GraphObj) (it : Nat) : Nat :=
  match g.ops[it]? with
  | none => 0
  | some cur =>
    3 * (g.ops.length - it) + (if (g.opAt cur).transA then 0 else 1) +
      (if (g.opAt cur).transB then 0 else 1)

/-! ## Live blocks, input shapes and further example graphs -/

/-- Two byte ranges `(address, size)` have a byte in common. -/
def rangesOverlap (a b : Nat × Nat) : Bool :=
  decide (a.1 < b.1 + b.2 ∧ b.1 < a.1 + a.2)

/-- The shapes (`getDims()`) of the input tensors of operator `op`, in input
order: what `op->inferShape()` passes to `inferShape(inputs)`. -/
def GraphObj.inputDims (g : GraphObj) (op : Nat) : List Shape :=
  (g.opAt op).inputs.map fun t => (g.tensorAt t).dims

/-- Example graph `X -> T -> M` with other operand `Z` and shapes filled in:
tensor 0 (`X`, shape `[5,4]`) is read by Transpose 10 with permutation `[1,0]`,
whose output tensor 2 (shape `[4,5]`) is the first operand of Matmul 11
(`transA = transB = false`); the second operand is tensor 1 (`Z`, shape
`[5,4]`); the Matmul produces tensor 3 (shape `[4,4]`). -/
def exampleFuseShapes : GraphObj :=
  { tensorAt := fun t =>
      match t with
      | 0 => { source := none, targets := [10], fuid := 0, dims := [5, 4] }
      | 1 => { source := none, targets := [11], fuid := 1, dims := [5, 4] }
      | 2 => { source := some 10, targets := [11], fuid := 2, dims := [4, 5] }
      | 3 => { source := some 11, targets := [], fuid := 3, dims := [4, 4] }
      | _ => TensorObj.blank
    opAt := fun o =>
      match o with
      | 10 => { inputs := [0], outputs := [2], predecessors := [], successors := [11],
                type := OpType.Transpose, permute := [1, 0] }
      | 11 => { inputs := [2, 1], outputs := [3], predecessors := [10], successors := [],
                type := OpType.MatMul, transA := false, transB := false }
      | _ => OperatorObj.blank
    tensors := [0, 1, 2, 3]
    ops := [10, 11]
    sorted := true }

/-- Example graph `M = Matmul(T1(X), T2(Z))` with two independent Transposes:
tensor 0 (`X`) is read by Transpose 10 (permutation `perm1`, output tensor 2),
tensor 1 (`Z`) is read by Transpose 11 (permutation `perm2`, output tensor 3),
and Matmul 12 reads tensors 2 and 3 and produces tensor 4.  The two Transposes
are adjacent in the operator list, which is in topological order and flagged
sorted. -/
def exampleIndependentTransposes (perm1 perm2 : List Int) : GraphObj :=
  { tensorAt := fun t =>
      match t with
      | 0 => { source := none, targets := [10], fuid := 0 }
      | 1 => { source := none, targets := [11], fuid := 1 }
      | 2 => { source := some 10, targets := [12], fuid := 2 }
      | 3 => { source := some 11, targets := [12], fuid := 3 }
      | 4 => { source := some 12, targets := [], fuid := 4 }
      | _ => TensorObj.blank
    opAt := fun o =>
      match o with
      | 10 => { inputs := [0], outputs := [2], predecessors := [], successors := [12],
                type := OpType.Transpose, permute := perm1 }
      | 11 => { inputs := [1], outputs := [3], predecessors := [], successors := [12],
                type := OpType.Transpose, permute := perm2 }
      | 12 => { inputs := [2, 3], outputs := [4], predecessors := [10, 11], successors := [],
                type := OpType.MatMul, transA := false, transB := false }
      | _ => OperatorObj.blank
    tensors := [0, 1, 2, 3, 4]
    ops := [10, 11, 12]
    sorted := true }

/-- Example graph `M = Matmul(TA(X), TB(Z))` in which the two Transposes are not
neighbours in the operator list: tensor 0 (`X`) is read by Transpose 10
(permutation `[1,0]`, output tensor 2), operator 13 (of another kind, without
inputs) produces tensor 5, tensor 1 (`Z`) is read by Transpose 11 (permutation
`[1,0]`, output tensor 3), and Matmul 12 (`transA = transB = false`) reads
tensors 2 and 3 and produces tensor 4.  The operator list `[10, 13, 11, 12]` is
in topological order and flagged sorted. -/
def exampleBothOperands : GraphObj :=
  { tensorAt := fun t =>
      match t with
      | 0 => { source := none, targets := [10], fuid := 0 }
      | 1 => { source := none, targets := [11], fuid := 1 }
      | 2 => { source := some 10, targets := [12], fuid := 2 }
      | 3 => { source := some 11, targets := [12], fuid := 3 }
      | 4 => { source := some 12, targets := [], fuid := 4 }
      | 5 => { source := some 13, targets := [], fuid := 5 }
      | _ => TensorObj.blank
    opAt := fun o =>
      match o with
      | 10 => { inputs := [0], outputs := [2], predecessors := [], successors := [12],
                type := OpType.Transpose, permute := [1, 0] }
      | 11 => { inputs := [1], outputs := [3], predecessors := [], successors := [12],
                type := OpType.Transpose, permute := [1, 0] }
      | 12 => { inputs := [2, 3], outputs := [4], predecessors := [10, 11], successors := [],
                type := OpType.MatMul, transA := false, transB := false }
      | 13 => { inputs := [], outputs := [5], predecessors := [], successors := [] }
      | _ => OperatorObj.blank
    tensors := [0, 1, 2, 3, 4, 5]
    ops := [10, 13, 11, 12]
    sorted := true }

/-! ## Graphs built through the interface -/

/-- With alignment 8 and a size in `[1, 2^64 - 8]`, rounding does not wrap. -/
theorem Allocator.getAlignedSize_eq (a : Allocator) (hal : a.alignment = 8) (s : Nat)
    (h1 : 1 ≤ s) (h2 : s ≤ SIZE_MOD - 8) :
    a.getAlignedSize s = ((s - 1) / 8 + 1) * 8 := by
  unfold Allocator.getAlignedSize
  unfold SIZE_MOD at *
  rw [hal]
  have e1 : (s + 18446744073709551616 - 1) % 18446744073709551616 = s - 1 := by omega
  rw [e1]
  omega

/-- With alignment 8, the rounded size of a size in `[1, 2^64 - 8]` is positive. -/
theorem Allocator.getAlignedSize_pos (a : Allocator) (hal : a.alignment = 8) (s : Nat)
    (h1 : 1 ≤ s) (h2 : s ≤ SIZE_MOD - 8) : 0 < a.getAlignedSize s := by
  rw [a.getAlignedSize_eq hal s h1 h2]; omega

/-- Claim C4 (code at the failing input): on a fresh allocator the calls
`alloc(100)`, `alloc(200)`, `free(0, 100)`, `alloc(90)` return the addresses 0,
104 and 200: the last `alloc` does not return the freed address 0, it extends
the arena (and 200 lies inside the live block `[104, 304)`). -/
theorem Allocator.alloc_after_free_extends_arena :
    (Allocator.new.run [.alloc 100, .alloc 200, .free 0 100, .alloc 90]).map (fun r => r.1)
      = some [0, 104, 200] := by
  decide

/-- Immediately after every `alloc` that returns, `peak >= used` holds. -/
theorem Allocator.alloc_peak_ge_used (a : Allocator) (size addr : Nat) (a1 : Allocator)
    (h : a.alloc size = some (addr, a1)) : a1.peak ≥ a1.used := by
  unfold Allocator.alloc at h
  simp only [ne_eq, not_true_eq_false, if_false] at h
  split at h
  · simp only [Option.some.injEq, Prod.mk.injEq] at h
    rw [← h.2]
    exact le_max_right _ _
  · simp only [Option.some.injEq, Prod.mk.injEq] at h
    rw [← h.2]
    exact le_max_left _ _

/-- Claim C5 (code at the failing input): on a fresh allocator, after
`alloc(8)`, `alloc(8)` (addresses 0 and 8), `free(0, 8)` and `free(8, 8)` the
counter `used` is `2 ^ 64 - 8` and `peak` is 16, so `peak >= used` fails: the
second `free` subtracts the size of the merged block (16), not of the freed
region (8). -/
theorem Allocator.peak_lt_used_after_merge :
    Allocator.new.run [.alloc 8, .alloc 8, .free 0 8, .free 8 8] =
        some ([0, 8], { used := 18446744073709551608, peak := 16, ptr := none, alignment := 8,
                        freeBlocks := [(0, 16)] }) ∧
      ¬ ((16 : Nat) ≥ 18446744073709551608) := by
  decide

/-- Claim C6 (counterexample): after `alloc(100)` and `alloc(50)` (addresses 0 and
104) the registry is empty; `free(0, 100)` followed by `free(0 + 100, 50)` then
leaves two free blocks, `(0, 104)` and `(100, 56)`, not the single block
`[0, 150)`. -/
theorem Allocator.free_unaligned_no_merge :
    (Allocator.new.run [.alloc 100, .alloc 50, .free 0 100, .free 100 50]).map
        (fun r => (r.1, r.2.freeBlocks)) = some ([0, 104], [(0, 104), (100, 56)]) ∧
    ¬ ∃ a, Allocator.new.run [.alloc 100, .alloc 50, .free 0 100, .free 100 50] = some ([0, 104], a) ∧
        a.freeBlocks = [(0, 150)] := by
  refine ⟨by decide, ?_⟩
  rintro ⟨a, h1, h2⟩
  have h3 : (Allocator.new.run [.alloc 100, .alloc 50, .free 0 100, .free 100 50]).map
      (fun r => r.2.freeBlocks) = some [(0, 104), (100, 56)] := by decide
  rw [h1] at h3
  simp only [Option.map_some', Option.some.injEq] at h3
  rw [h2] at h3
  exact absurd h3 (by decide)

/-- Claim C6 (amended): on an allocator with an empty registry and no buffer
materialized, `free(A, s1)` followed by `free(A + getAlignedSize(s1), s2)`
leaves exactly one free block, at address `A` with size
`getAlignedSize(s1) + getAlignedSize(s2)`, provided `1 <= s1 <= 2^64 - 8` and the
end of the merged range does not wrap around `2^64`. -/
theorem Allocator.free_coalesce (a : Allocator) (A s1 s2 : Nat) (hptr : a.ptr = none)
    (hal : a.alignment = 8) (hreg : a.freeBlocks = []) (h1 : 1 ≤ s1) (h2 : s1 ≤ SIZE_MOD - 8)
    (hA : A + a.getAlignedSize s1 + a.getAlignedSize s2 < SIZE_MOD) :
    ((a.free A s1).bind fun a1 => a1.free (A + a.getAlignedSize s1) s2).map
        (fun a2 => a2.freeBlocks) =
      some [(A, a.getAlignedSize s1 + a.getAlignedSize s2)] := by
  have hpos := a.getAlignedSize_pos hal s1 h1 h2
  have hfree1 : a.free A s1 = some { a with
      freeBlocks := [(A, a.getAlignedSize s1)],
      used := (a.used + SIZE_MOD - a.getAlignedSize s1) % SIZE_MOD } := by
    simp [Allocator.free, hptr, hreg, FreeBlocks.lower_bound, FreeBlocks.emplace]
  rw [hfree1]
  have hlb : ¬ (A + a.getAlignedSize s1 ≤ A) := by omega
  have hm1 : (A + a.getAlignedSize s1) % SIZE_MOD = A + a.getAlignedSize s1 :=
    Nat.mod_eq_of_lt (by omega)
  have hm2 : (a.getAlignedSize s2 + a.getAlignedSize s1) % SIZE_MOD =
      a.getAlignedSize s1 + a.getAlignedSize s2 := by
    rw [Nat.mod_eq_of_lt (by omega)]; omega
  have hal2 : ∀ (u : Nat) (p : Option Nat) (fb : FreeBlocks) (s : Nat),
      Allocator.getAlignedSize { a with freeBlocks := fb, used := u, ptr := p } s =
        a.getAlignedSize s :=
    fun _ _ _ _ => rfl
  simp [Allocator.free, hptr, FreeBlocks.lower_bound, FreeBlocks.emplace, FreeBlocks.erase,
    hlb, hm1, hm2, hal2]

/-- Instance of `free_coalesce`: on a fresh allocator `free(1000, 100)` then
`free(1104, 50)` leaves the one block `(1000, 160)`. -/
theorem Allocator.free_coalesce_witness :
    ((Allocator.new.free 1000 100).bind fun a1 => a1.free 1104 50).map
        (fun a2 => a2.freeBlocks) = some [(1000, 160)] :=
  Allocator.free_coalesce Allocator.new 1000 100 50 rfl rfl rfl
    (by decide) (by decide) (by decide)

/-- Claim C7 (code at the failing input): after `alloc(200)`, `alloc(8)`,
`alloc(8)`, `free(200, 8)` the registry is `[(200, 8)]` and `used = 208`.  The
request `alloc(100)` is rounded to 104; no free block has size at least 104, yet
`alloc` returns 200 and removes the 8-byte block instead of returning `used`. -/
theorem Allocator.alloc_hands_out_too_small_block :
    Allocator.new.run [.alloc 200, .alloc 8, .alloc 8, .free 200 8] =
        some ([0, 200, 208], { used := 208, peak := 216, ptr := none, alignment := 8,
                               freeBlocks := [(200, 8)] }) ∧
      Allocator.new.getAlignedSize 100 = 104 ∧
      Allocator.alloc { used := 208, peak := 216, ptr := none, alignment := 8,
                        freeBlocks := [(200, 8)] } 100 =
        some (200, { used := 312, peak := 312, ptr := none, alignment := 8, freeBlocks := [] }) := by
  decide

/-- Claim C8 (code at the failing input): after `getPtr` the member `ptr` is
non-null, and a following `alloc` still returns (an address and a state) instead
of aborting, whatever the state and the size. -/
theorem Allocator.alloc_after_getPtr_returns (a : Allocator) (buf size : Nat) :
    (a.getPtr buf).2.ptr ≠ none ∧ ∃ r, (a.getPtr buf).2.alloc size = some r := by
  constructor
  · unfold Allocator.getPtr
    split <;> simp_all
  · unfold Allocator.alloc
    simp only [ne_eq, not_true_eq_false, if_false]
    split <;> exact ⟨_, rfl⟩

/-! ## Properties of Matmul shape inference -/

/-- For operands of equal rank whose batch dimensions are broadcast-compatible,
the batch loop appends the axis-wise maxima and reads no index outside the
shapes. -/
theorem MatmulObj.batchLoop_same_rank (A B : Shape) (r : Nat) (hA : A.length = r)
    (hB : B.length = r) (hr64 : r < SIZE_MOD)
    (hb : ∀ i, i < r - 2 → A[i]? = B[i]? ∨ A[i]? = some 1 ∨ B[i]? = some 1) :
    ∀ (n i : Nat) (out : Shape), i + n = r - 2 →
      MatmulObj.batchLoop A B r n i out =
        .ok (out ++ (List.range' i n).map fun k => max (A.getD k 0) (B.getD k 0)) := by
  intro n
  induction n with
  | zero => intro i out _; simp [MatmulObj.batchLoop]
  | succ n ih =>
    intro i out hin
    have hi : i < r - 2 := by omega
    have hiA : i < A.length := by omega
    have hiB : i < B.length := by omega
    have hidx : (r + SIZE_MOD - r + i) % SIZE_MOD = i := by
      have : r + SIZE_MOD - r + i = i + SIZE_MOD := by omega
      rw [this, Nat.add_mod_right, Nat.mod_eq_of_lt (by omega)]
    have hbi := hb i hi
    rw [MatmulObj.batchLoop]
    simp only [hA, hB, hidx, show i < r by omega, if_true]
    rw [List.getElem?_eq_getElem hiA, List.getElem?_eq_getElem hiB] at hbi ⊢
    simp only [Option.some.injEq] at hbi
    have hcond : ¬ (A[i] ≠ B[i] ∧ A[i] ≠ 1 ∧ B[i] ≠ 1) := by
      rintro ⟨h1, h2, h3⟩
      rcases hbi with h | h | h
      · exact h1 h
      · exact h2 h
      · exact h3 h
    simp only [hcond, if_false]
    rw [ih (i + 1) _ (by omega), List.range'_succ]
    simp [List.getD_eq_getElem?_getD, List.getElem?_eq_getElem hiA, List.getElem?_eq_getElem hiB]

/-- Claim C9: for operand shapes `A`, `B` of the same rank `r >= 2` with
`A[r-1] = B[r-2]` whose leading `r-2` dimensions are pairwise equal or have one
side equal to 1, `MatmulObj::inferShape` returns the single shape
`[max(A[0],B[0]), ..., max(A[r-3],B[r-3]), A[r-2], B[r-1]]`. -/
theorem MatmulObj.inferShape_contraction (A B : Shape) (r : Nat) (hA : A.length = r)
    (hB : B.length = r) (hr : 2 ≤ r) (hr64 : r < SIZE_MOD)
    (hk : A[r - 1]? = B[r - 2]?)
    (hb : ∀ i, i < r - 2 → A[i]? = B[i]? ∨ A[i]? = some 1 ∨ B[i]? = some 1) :
    MatmulObj.inferShape [A, B] =
      .ok [((List.range (r - 2)).map fun i => max (A.getD i 0) (B.getD i 0)) ++
            [A.getD (r - 2) 0, B.getD (r - 1) 0]] := by
  have h1 : r - 1 < A.length := by omega
  have h2 : r - 2 < A.length := by omega
  have h3 : r - 1 < B.length := by omega
  have h4 : r - 2 < B.length := by omega
  rw [List.getElem?_eq_getElem h1, List.getElem?_eq_getElem h4] at hk
  simp only [Option.some.injEq] at hk
  have hloop := MatmulObj.batchLoop_same_rank A B r hA hB hr64 hb (r - 2) 0 [] (by omega)
  simp only [MatmulObj.inferShape, hA, hB, max_self]
  rw [if_neg (by omega)]
  rw [List.getElem?_eq_getElem h1, List.getElem?_eq_getElem h2, List.getElem?_eq_getElem h3,
    List.getElem?_eq_getElem h4]
  simp only [MatmulObj.selectDims, hk, if_true, hloop, List.nil_append, List.range_eq_range']
  simp [List.getD_eq_getElem?_getD, List.getElem?_eq_getElem h2, List.getElem?_eq_getElem h3]

/-- Instances of `inferShape_contraction`: `[2,3,4]` with `[2,4,5]` gives
`[2,3,5]`, and `[3,4]` with `[4,5]` gives `[3,5]`. -/
theorem MatmulObj.inferShape_contraction_witness :
    MatmulObj.inferShape [[2, 3, 4], [2, 4, 5]] = .ok [[2, 3, 5]] ∧
    MatmulObj.inferShape [[3, 4], [4, 5]] = .ok [[3, 5]] :=
  ⟨MatmulObj.inferShape_contraction [2, 3, 4] [2, 4, 5] 3 rfl rfl (by decide) (by decide)
      (by decide) (by decide),
   MatmulObj.inferShape_contraction [3, 4] [4, 5] 2 rfl rfl (by decide) (by decide)
      (by decide) (by decide)⟩

/-- Claim C10 (counterexample): on `A = [2,3]`, `B = [2,5]` the call
`MatmulObj::inferShape` does not return `std::nullopt`. -/
theorem MatmulObj.inferShape_outer_pairing_matches :
    MatmulObj.inferShape [[2, 3], [2, 5]] ≠ .nullopt := by
  decide

/-- Claim C10 (amended): on operands of rank 2, `MatmulObj::inferShape` returns
`std::nullopt` exactly when none of the four pairings of trailing dimensions
matches; on `A = [2,3]`, `B = [2,5]` the third pairing (`a_outer = b_outer = 2`)
matches and the result is the single shape `[3,5]`. -/
theorem MatmulObj.inferShape_rank2 (a0 a1 b0 b1 : Int) :
    (MatmulObj.inferShape [[a0, a1], [b0, b1]] = .nullopt ↔
      a1 ≠ b0 ∧ a1 ≠ b1 ∧ a0 ≠ b0 ∧ a0 ≠ b1) ∧
    MatmulObj.inferShape [[2, 3], [2, 5]] = .ok [[3, 5]] := by
  refine ⟨?_, by decide⟩
  simp only [MatmulObj.inferShape, MatmulObj.selectDims, MatmulObj.batchLoop]
  simp only [List.length_cons, List.length_nil, Nat.reduceAdd, Nat.lt_irrefl, or_self,
    if_false, Nat.reduceSub, List.getElem?_cons_succ, List.getElem?_cons_zero, max_self,
    List.nil_append]
  split_ifs <;> simp_all

/-! ## Properties of the scheduler -/

/-- Reading of the readiness test: the operator is not flagged and the source
of each of its inputs, when there is one, is flagged. -/
theorem GraphObj.topo_ready_iff (g : GraphObj) (flags : List Nat) (op : Nat) :
    g.topo_ready flags op = true ↔
      op ∉ flags ∧ ∀ p, some p ∈ g.inputSources op → p ∈ flags := by
  unfold GraphObj.topo_ready
  simp only [Bool.and_eq_true, Bool.not_eq_true', List.all_eq_true]
  constructor
  · rintro ⟨h1, h2⟩
    refine ⟨by simpa using h1, fun p hp => ?_⟩
    simpa using h2 (some p) hp
  · rintro ⟨h1, h2⟩
    refine ⟨by simpa using h1, fun x hx => ?_⟩
    cases x with
    | none => rfl
    | some p => simpa using h2 p hx

/-- Placing a ready graph operator keeps the scan invariant. -/
theorem TopoInv.push {g : GraphObj} {st : TopoState} (hinv : TopoInv g st) {op : Nat}
    (hop : op ∈ g.ops) (hr : g.topo_ready st.flags op = true) :
    TopoInv g { modified := true, sorted := st.sorted ++ [op], flags := op :: st.flags } := by
  rw [GraphObj.topo_ready_iff] at hr
  obtain ⟨hnot, hsrc⟩ := hr
  refine ⟨?_, ?_, ?_, ?_⟩
  · intro x
    simp only [List.mem_cons, List.mem_append, List.mem_singleton, hinv.flags_iff]
    tauto
  · simp only
    rw [List.nodup_append]
    refine ⟨hinv.nodup, List.nodup_singleton _, ?_⟩
    intro a ha hb
    rw [List.mem_singleton] at hb
    subst hb
    exact hnot ((hinv.flags_iff _).2 ha)
  · intro x hx
    simp only [List.mem_append, List.mem_singleton] at hx
    rcases hx with hx | rfl
    · exact hinv.sub x hx
    · exact hop
  · intro i q hi p hp
    simp only at hi ⊢
    by_cases hlt : i < st.sorted.length
    · rw [List.getElem?_append_left hlt] at hi
      obtain ⟨j, hj, hjp⟩ := hinv.first i q hi p hp
      exact ⟨j, hj, by rw [List.getElem?_append_left (by omega)]; exact hjp⟩
    · have hge : st.sorted.length ≤ i := by omega
      rw [List.getElem?_append_right hge] at hi
      have hi0 : i - st.sorted.length = 0 := by
        by_contra hne
        rw [List.getElem?_eq_none (by simp; omega)] at hi
        cases hi
      rw [hi0] at hi
      simp only [List.getElem?_cons_zero, Option.some.injEq] at hi
      subst hi
      have hpm : p ∈ st.sorted := (hinv.flags_iff p).1 (hsrc p hp)
      obtain ⟨j, hjl, hj⟩ := List.getElem_of_mem hpm
      refine ⟨j, by omega, ?_⟩
      rw [List.getElem?_append_left hjl, List.getElem?_eq_getElem hjl, hj]

/-- A scan over graph operators keeps the scan invariant. -/
theorem GraphObj.topo_scan_inv (g : GraphObj) :
    ∀ (rest : List Nat) (st : TopoState), (∀ x ∈ rest, x ∈ g.ops) → TopoInv g st →
      TopoInv g (g.topo_scan rest st) := by
  intro rest
  induction rest with
  | nil => intro st _ h; simpa [GraphObj.topo_scan] using h
  | cons op rest ih =>
    intro st hsub hinv
    rw [GraphObj.topo_scan]
    split
    · next hr =>
      exact ih _ (fun x hx => hsub x (List.mem_cons_of_mem _ hx))
        (hinv.push (hsub op (List.mem_cons_self _ _)) hr)
    · exact ih _ (fun x hx => hsub x (List.mem_cons_of_mem _ hx)) hinv

/-- A scan never shortens `sorted`, and a scan that sets `modified` lengthens it. -/
theorem GraphObj.topo_scan_length (g : GraphObj) :
    ∀ (rest : List Nat) (st : TopoState),
      st.sorted.length ≤ (g.topo_scan rest st).sorted.length ∧
      ((g.topo_scan rest st).modified = true →
        st.modified = true ∨ st.sorted.length < (g.topo_scan rest st).sorted.length) := by
  intro rest
  induction rest with
  | nil => intro st; simp [GraphObj.topo_scan]
  | cons op rest ih =>
    intro st
    rw [GraphObj.topo_scan]
    split
    · have h := ih { modified := true, sorted := st.sorted ++ [op], flags := op :: st.flags }
      simp only [List.length_append, List.length_singleton] at h
      exact ⟨by omega, fun _ => Or.inr (by omega)⟩
    · exact ih st

/-- Once set, `modified` stays set for the rest of the scan. -/
theorem GraphObj.topo_scan_modified_mono (g : GraphObj) :
    ∀ (rest : List Nat) (st : TopoState), st.modified = true →
      (g.topo_scan rest st).modified = true := by
  intro rest
  induction rest with
  | nil => intro st h; simpa [GraphObj.topo_scan] using h
  | cons op rest ih =>
    intro st h
    rw [GraphObj.topo_scan]
    split
    · exact ih _ rfl
    · exact ih _ h

/-- A scan that ends with `modified` clear changed nothing and found no operator
ready. -/
theorem GraphObj.topo_scan_unmodified (g : GraphObj) :
    ∀ (rest : List Nat) (st : TopoState), (g.topo_scan rest st).modified = false →
      g.topo_scan rest st = st ∧ ∀ op ∈ rest, g.topo_ready st.flags op = false := by
  intro rest
  induction rest with
  | nil => intro st _; simp [GraphObj.topo_scan]
  | cons op rest ih =>
    intro st h
    rw [GraphObj.topo_scan] at h ⊢
    split at h
    · rw [g.topo_scan_modified_mono rest _ rfl] at h
      cases h
    · next hr =>
      rw [if_neg hr]
      obtain ⟨h1, h2⟩ := ih st h
      refine ⟨h1, ?_⟩
      intro x hx
      rcases List.mem_cons.1 hx with rfl | hx
      · simpa using hr
      · exact h2 x hx

/-- The locals of `topo_sort` satisfy the invariant before the first scan. -/
theorem TopoInv.init (g : GraphObj) :
    TopoInv g { modified := false, sorted := [], flags := [] } :=
  ⟨fun _ => Iff.rfl, List.nodup_nil, fun _ h => absurd h (List.not_mem_nil _),
    fun i q h => by simp at h⟩

/-- The invariant does not depend on the local `modified`. -/
theorem TopoInv.of_modified {g : GraphObj} {m m' : Bool} {s f : List Nat}
    (h : TopoInv g { modified := m, sorted := s, flags := f }) :
    TopoInv g { modified := m', sorted := s, flags := f } :=
  ⟨h.flags_iff, h.nodup, h.sub, h.first⟩

/-- The loop of `topo_sort` always leaves through one of its two exits when it
is given as many iterations as operators are still unplaced. -/
theorem GraphObj.topo_loop_ne_none (g : GraphObj) :
    ∀ (fuel : Nat) (sorted flags : List Nat), g.ops.length ≤ sorted.length + fuel →
      g.topo_loop fuel sorted flags ≠ none := by
  intro fuel
  induction fuel with
  | zero =>
    intro sorted flags h
    rw [GraphObj.topo_loop, if_neg (by omega)]
    simp
  | succ fuel ih =>
    intro sorted flags h
    rw [GraphObj.topo_loop]
    split
    · simp only
      split
      · simp
      · next hm =>
        have hl := (g.topo_scan_length g.ops
          { modified := false, sorted := sorted, flags := flags }).2 (by simpa using hm)
        simp only [Bool.false_eq_true, false_or] at hl
        exact ih _ _ (by omega)
    · simp

/-- When the loop of `topo_sort` ends normally, its vector `sorted` satisfies
the scan invariant and is at least as long as `ops`. -/
theorem GraphObj.topo_loop_some (g : GraphObj) :
    ∀ (fuel : Nat) (sorted flags l : List Nat),
      TopoInv g { modified := false, sorted := sorted, flags := flags } →
      g.topo_loop fuel sorted flags = some (some l) →
      TopoInv g { modified := false, sorted := l, flags := l } ∧ g.ops.length ≤ l.length := by
  intro fuel
  induction fuel with
  | zero =>
    intro sorted flags l hinv h
    rw [GraphObj.topo_loop] at h
    split at h
    · cases h
    · next hlen =>
      simp only [Option.some.injEq] at h
      subst h
      exact ⟨⟨fun _ => Iff.rfl, hinv.nodup, hinv.sub, hinv.first⟩, by omega⟩
  | succ fuel ih =>
    intro sorted flags l hinv h
    rw [GraphObj.topo_loop] at h
    split at h
    · simp only at h
      split at h
      · cases h
      · have hinv2 := g.topo_scan_inv g.ops _ (fun _ hx => hx) hinv
        exact ih _ _ l hinv2.of_modified h
    · next hlen =>
      simp only [Option.some.injEq] at h
      subst h
      exact ⟨⟨fun _ => Iff.rfl, hinv.nodup, hinv.sub, hinv.first⟩, by omega⟩

/-- When the loop of `topo_sort` leaves through `return false`, the last scan
started from locals satisfying the invariant, with fewer placed operators than
`ops` has entries, and found no operator ready. -/
theorem GraphObj.topo_loop_false (g : GraphObj) :
    ∀ (fuel : Nat) (sorted flags : List Nat),
      TopoInv g { modified := false, sorted := sorted, flags := flags } →
      g.topo_loop fuel sorted flags = some none →
      ∃ s f : List Nat, TopoInv g { modified := false, sorted := s, flags := f } ∧
        s.length < g.ops.length ∧ ∀ op ∈ g.ops, g.topo_ready f op = false := by
  intro fuel
  induction fuel with
  | zero =>
    intro sorted flags hinv h
    rw [GraphObj.topo_loop] at h
    split at h <;> cases h
  | succ fuel ih =>
    intro sorted flags hinv h
    rw [GraphObj.topo_loop] at h
    split at h
    · next hlen =>
      simp only at h
      split at h
      · next hm =>
        have hu := g.topo_scan_unmodified g.ops
          { modified := false, sorted := sorted, flags := flags } (by simpa using hm)
        exact ⟨sorted, flags, hinv, hlen, hu.2⟩
      · have hinv2 := g.topo_scan_inv g.ops _ (fun _ hx => hx) hinv
        exact ih _ _ hinv2.of_modified h
    · cases h

/-- `topo_sort` always returns: the iteration bound of the model is never hit. -/
theorem GraphObj.topo_sort_total (g : GraphObj) : ∃ r, g.topo_sort = some r := by
  unfold GraphObj.topo_sort
  split
  · exact ⟨_, rfl⟩
  · have h := g.topo_loop_ne_none g.ops.length [] [] (by simp)
    split
    · next heq => exact absurd heq h
    · exact ⟨_, rfl⟩
    · exact ⟨_, rfl⟩

/-- Under the scan invariant, `sorted` lists every producer strictly before its
consumers. -/
theorem TopoInv.producersFirst {g : GraphObj} {st : TopoState} (hinv : TopoInv g st) :
    g.ProducersFirst st.sorted := by
  intro i q hi p hp
  obtain ⟨j, hj, hjp⟩ := hinv.first i q hi p hp
  refine ⟨⟨j, hj, hjp⟩, ?_⟩
  intro k hk
  have hjl : j < st.sorted.length := by
    by_contra hn
    rw [List.getElem?_eq_none (by omega)] at hjp
    cases hjp
  have hkl : k < st.sorted.length := by
    by_contra hn
    rw [List.getElem?_eq_none (by omega)] at hk
    cases hk
  rw [List.getElem?_eq_getElem hjl] at hjp
  rw [List.getElem?_eq_getElem hkl] at hk
  have : j = k := (List.Nodup.getElem_inj_iff hinv.nodup).1 (by
    simp only [Option.some.injEq] at hjp hk
    rw [hjp, hk])
  omega

/-- A relation on operators in which every member of a non-empty set `U` of
listed operators has a predecessor in `U` contains a cycle. -/
theorem exists_cycle_of_no_minimal (R : Nat → Nat → Prop) (ops : List Nat) (U : Nat → Prop)
    (hU : ∀ u, U u → u ∈ ops) (hne : ∃ u, U u)
    (hpred : ∀ u, U u → ∃ p, U p ∧ R p u) : ∃ q, Relation.TransGen R q q := by
  by_contra hno
  have hirr : ∀ q, ¬ Relation.TransGen R q q := fun q hq => hno ⟨q, hq⟩
  let r : {x // x ∈ ops} → {x // x ∈ ops} → Prop := fun a b => Relation.TransGen R a.1 b.1
  haveI : IsTrans {x // x ∈ ops} r := ⟨fun _ _ _ h1 h2 => Relation.TransGen.trans h1 h2⟩
  haveI : IsIrrefl {x // x ∈ ops} r := ⟨fun a h => hirr a.1 h⟩
  have hwf : WellFounded r := Finite.wellFounded_of_trans_of_irrefl r
  have hall : ∀ a : {x // x ∈ ops}, ¬ U a.1 := by
    intro a
    induction a using hwf.induction with
    | _ a ih =>
      intro hUa
      obtain ⟨p, hUp, hR⟩ := hpred a.1 hUa
      exact ih ⟨p, hU p hUp⟩ (Relation.TransGen.single hR) hUp
  obtain ⟨u, hu⟩ := hne
  exact hall ⟨u, hU u hu⟩ hu

/-- In a producers-first sequence holding every graph operator, a chain of
`precedes` steps leads to a strictly later position. -/
theorem GraphObj.precedes_chain_lt (g : GraphObj) (l : List Nat)
    (hfirst : g.ProducersFirst l) (hall : ∀ x ∈ g.ops, x ∈ l) {a b : Nat}
    (h : Relation.TransGen g.precedes a b) :
    ∀ (i j : Nat), l[i]? = some a → l[j]? = some b → i < j := by
  induction h with
  | single hab =>
    intro i j hi hj
    exact (hfirst j _ hj a hab.2.2).2 i hi
  | tail hac hcb ih =>
    rename_i c b
    intro i j hi hj
    obtain ⟨k, hkl, hk⟩ := List.getElem_of_mem (hall c hcb.1)
    have hk' : l[k]? = some c := by rw [List.getElem?_eq_getElem hkl, hk]
    have h1 := ih i k hi hk'
    have h2 := (hfirst j _ hj c hcb.2.2).2 k hk'
    omega

/-- If the loop of `topo_sort` ends normally, the graph has no cycle. -/
theorem GraphObj.topo_loop_some_acyclic (g : GraphObj) (l : List Nat)
    (h : g.topo_loop g.ops.length [] [] = some (some l)) : ¬ g.HasCycle := by
  obtain ⟨hinv, hlen⟩ := g.topo_loop_some _ _ _ l (TopoInv.init g) h
  have hsp : l.Subperm g.ops := List.subperm_of_subset hinv.nodup hinv.sub
  have hperm : l.Perm g.ops := hsp.perm_of_length_le hlen
  have hall : ∀ x ∈ g.ops, x ∈ l := fun x hx => hperm.mem_iff.2 hx
  rintro ⟨q, hq⟩
  have hqops : q ∈ g.ops := by
    cases hq with
    | single h => exact h.2.1
    | tail _ h => exact h.2.1
  obtain ⟨k, hkl, hk⟩ := List.getElem_of_mem (hall q hqops)
  have hk' : l[k]? = some q := by rw [List.getElem?_eq_getElem hkl, hk]
  have := g.precedes_chain_lt l hinv.producersFirst hall hq k k hk' hk'
  omega

/-- If the loop of `topo_sort` leaves through `return false` on a graph without
repeated operators and without sources outside `ops`, the graph has a cycle. -/
theorem GraphObj.topo_loop_false_cyclic (g : GraphObj) (hnd : g.ops.Nodup)
    (hsrc : g.SourcesInOps) (h : g.topo_loop g.ops.length [] [] = some none) :
    g.HasCycle := by
  obtain ⟨s, f, hinv, hlen, hnr⟩ := g.topo_loop_false _ _ _ (TopoInv.init g) h
  have hex : ∃ u, u ∈ g.ops ∧ u ∉ f := by
    by_contra hcon
    push_neg at hcon
    have hsub : ∀ x ∈ g.ops, x ∈ s := fun x hx => (hinv.flags_iff x).1 (hcon x hx)
    have := (List.subperm_of_subset hnd hsub).length_le
    omega
  apply exists_cycle_of_no_minimal g.precedes g.ops (fun u => u ∈ g.ops ∧ u ∉ f)
    (fun u hu => hu.1) hex
  rintro u ⟨huo, huf⟩
  have hr := hnr u huo
  have hr' : ¬ (u ∉ f ∧ ∀ p, some p ∈ g.inputSources u → p ∈ f) := by
    rw [← GraphObj.topo_ready_iff, hr]; simp
  have : ∃ p, some p ∈ g.inputSources u ∧ p ∉ f := by
    by_contra hcon
    push_neg at hcon
    exact hr' ⟨huf, hcon⟩
  obtain ⟨p, hp, hpf⟩ := this
  exact ⟨p, ⟨hsrc u huo p hp, hpf⟩, hsrc u huo p hp, huo, hp⟩

/-- Claim C3: whenever `topo_sort` returns false the graph afterwards is the
graph before the call: same `ops` in the same order, and the `sorted` flag is
false. -/
theorem GraphObj.topo_sort_false_unmodified (g g' : GraphObj)
    (h : g.topo_sort = some (false, g')) :
    g' = g ∧ g'.ops = g.ops ∧ g'.sorted = false := by
  unfold GraphObj.topo_sort at h
  split at h
  · simp at h
  · next hs =>
    split at h
    · cases h
    · simp only [Option.some.injEq, Prod.mk.injEq, true_and] at h
      subst h
      exact ⟨rfl, rfl, by simpa using hs⟩
    · simp at h

/-- Instance of `topo_sort_false_unmodified`: on the two-operator cycle
`topo_sort` returns false and leaves the graph as it was. -/
theorem GraphObj.topo_sort_false_unmodified_witness :
    exampleCycle.topo_sort = some (false, exampleCycle) ∧
    exampleCycle.ops = [10, 11] ∧ exampleCycle.sorted = false :=
  ⟨rfl, (GraphObj.topo_sort_false_unmodified exampleCycle exampleCycle rfl).2⟩

/-- Claim C2 (amended): for every graph whose `sorted` flag is clear, whose
operator list has no repeated operator and in which the source of every input
tensor of a listed operator is itself listed, `topo_sort` returns false if and
only if the producer/consumer relation among the operators contains a cycle
(and returns true if and only if it contains none). -/
theorem GraphObj.topo_sort_false_iff_cycle (g : GraphObj) (hs : g.sorted = false)
    (hnd : g.ops.Nodup) (hsrc : g.SourcesInOps) :
    (g.topo_sort.map (fun r => r.1) = some false ↔ g.HasCycle) ∧
    (g.topo_sort.map (fun r => r.1) = some true ↔ ¬ g.HasCycle) := by
  have hne := g.topo_loop_ne_none g.ops.length [] [] (by simp)
  unfold GraphObj.topo_sort
  rw [hs]
  simp only [Bool.false_eq_true, if_false]
  cases hloop : g.topo_loop g.ops.length [] [] with
  | none => exact absurd hloop hne
  | some r =>
    cases r with
    | none =>
      have hc := g.topo_loop_false_cyclic hnd hsrc hloop
      simp [hc]
    | some l =>
      have hc := g.topo_loop_some_acyclic l hloop
      simp [hc]

/-- In the two-operator cycle every source is a listed operator. -/
theorem exampleCycle_sourcesInOps : exampleCycle.SourcesInOps := by
  intro q hq p hp
  simp only [exampleCycle, List.mem_cons, List.mem_singleton, List.not_mem_nil, or_false] at hq
  rcases hq with rfl | rfl
  · simp [GraphObj.inputSources, exampleCycle] at hp
    subst hp; simp [exampleCycle]
  · simp [GraphObj.inputSources, exampleCycle] at hp
    subst hp; simp [exampleCycle]

/-- Instance of `topo_sort_false_iff_cycle`: the two-operator cycle satisfies the
hypotheses, `topo_sort` returns false on it, and it has a cycle. -/
theorem GraphObj.topo_sort_false_iff_cycle_witness :
    exampleCycle.sorted = false ∧ exampleCycle.ops.Nodup ∧ exampleCycle.SourcesInOps ∧
    exampleCycle.topo_sort.map (fun r => r.1) = some false ∧ exampleCycle.HasCycle :=
  ⟨rfl, by decide, exampleCycle_sourcesInOps, rfl,
    (GraphObj.topo_sort_false_iff_cycle exampleCycle rfl (by decide)
      exampleCycle_sourcesInOps).1.1 rfl⟩

/-- Claim C2 (counterexample): on a graph with clear `sorted` flag whose only
operator reads a tensor produced by an operator that is not in `ops`,
`topo_sort` returns false although the producer/consumer relation among the
graph's operators has no cycle. -/
theorem GraphObj.topo_sort_false_without_cycle :
    exampleDangling.sorted = false ∧
    exampleDangling.topo_sort.map (fun r => r.1) = some false ∧
    ¬ exampleDangling.HasCycle := by
  refine ⟨rfl, rfl, ?_⟩
  have hno : ∀ p q, ¬ exampleDangling.precedes p q := by
    rintro p q ⟨hp, hq, hpq⟩
    simp only [exampleDangling, List.mem_singleton] at hp hq
    subst hp hq
    revert hpq
    decide
  rintro ⟨q, hq⟩
  cases hq with
  | single h => exact hno _ _ h
  | tail _ h => exact hno _ _ h

/-! ## Properties of the shape utilities -/

/-- Claim C19: for every `rank >= 1`, `get_real_axis(axis, rank)` is fatal exactly
when `axis` lies outside `[-rank, rank-1]`; for every `axis` inside that range
the result `r` satisfies `0 <= r <= rank-1`, with `r = axis` when `axis >= 0` and
`r = axis + rank` when `axis < 0`. -/
theorem get_real_axis_spec (axis rank : Int) (hr : rank ≥ 1) :
    (get_real_axis axis rank = none ↔ (axis < -rank ∨ axis > rank - 1)) ∧
    (-rank ≤ axis → axis ≤ rank - 1 →
      ∃ r, get_real_axis axis rank = some r ∧ 0 ≤ r ∧ r ≤ rank - 1 ∧
        (0 ≤ axis → r = axis) ∧ (axis < 0 → r = axis + rank)) := by
  unfold get_real_axis
  constructor
  · constructor
    · intro h
      by_contra hcon
      push_neg at hcon
      rw [if_neg (by omega), if_neg (by omega)] at h
      split at h <;> cases h
    · intro h
      rw [if_neg (by omega), if_pos (by omega)]
  · intro h1 h2
    rw [if_neg (by omega), if_neg (by omega)]
    by_cases hneg : axis < 0
    · rw [if_pos hneg]
      exact ⟨rank + axis, rfl, by omega, by omega, by omega, by omega⟩
    · rw [if_neg hneg]
      exact ⟨axis, rfl, by omega, by omega, by omega, by omega⟩

/-- Instance of `get_real_axis_spec` at rank 3: axis `-1` is resolved to 2, axis
3 is fatal. -/
theorem get_real_axis_spec_witness :
    (3 : Int) ≥ 1 ∧ get_real_axis (-1) 3 = some 2 ∧ get_real_axis 3 3 = none := by
  refine ⟨by decide, by decide, ?_⟩
  exact (get_real_axis_spec 3 3 (by decide)).1.2 (Or.inr (by decide))

/-- The loop of `infer_broadcast` in closed form. -/
theorem infer_broadcast_loop_eq (rA rB : Shape) :
    ∀ (k i : Nat) (res : Shape), i + k = res.length →
      infer_broadcast_loop rA rB k i res =
        if (List.range' i k).any (fun j =>
            decide (rA[j]?.getD 1 ≠ rB[j]?.getD 1 ∧ rA[j]?.getD 1 ≠ 1 ∧ rB[j]?.getD 1 ≠ 1)) then none
        else some (res.take i ++
          (List.range' i k).map fun j => max (rA[j]?.getD 1) (rB[j]?.getD 1)) := by
  have hget : ∀ (l : Shape) (j : Nat), (if h : j < l.length then l[j] else 1) = l[j]?.getD 1 := by
    intro l j
    split
    · next h => simp [List.getElem?_eq_getElem h]
    · next h => simp [List.getElem?_eq_none (Nat.le_of_not_lt h)]
  intro k
  induction k with
  | zero =>
    intro i res h
    simp only [Nat.add_zero] at h
    simp [infer_broadcast_loop, h]
  | succ k ih =>
    intro i res h
    rw [infer_broadcast_loop]
    simp only [hget]
    by_cases hbad : rA[i]?.getD 1 ≠ rB[i]?.getD 1 ∧ rA[i]?.getD 1 ≠ 1 ∧ rB[i]?.getD 1 ≠ 1
    · rw [if_pos hbad, List.range'_succ, List.any_cons, decide_eq_true hbad]
      simp
    · rw [if_neg hbad, ih (i + 1) _ (by simp; omega), List.range'_succ, List.any_cons,
        decide_eq_false hbad]
      have hi : i < res.length := by omega
      have htake : (res.set i (max (rA[i]?.getD 1) (rB[i]?.getD 1))).take (i + 1) =
          res.take i ++ [max (rA[i]?.getD 1) (rB[i]?.getD 1)] := by
        rw [List.set_eq_take_append_cons_drop, if_pos hi, List.take_append_eq_append_take]
        simp [List.length_take, Nat.min_eq_left (Nat.le_of_lt hi)]
      rw [htake]
      simp only [List.map_cons, List.append_assoc, List.singleton_append, Bool.false_or]

/-- The length of a right-aligned shape. -/
theorem Shape.rightAligned_length (n : Nat) (s : Shape) (hs : s.length ≤ n) :
    (Shape.rightAligned n s).length = n := by
  simp [Shape.rightAligned]; omega

/-- Entry `t` of a right-aligned shape, read through the reversed shape. -/
theorem Shape.rightAligned_getElem (n : Nat) (s : Shape) (hs : s.length ≤ n) (t : Nat)
    (ht : t < n) : (Shape.rightAligned n s)[t]? = some (s.reverse[n - 1 - t]?.getD 1) := by
  unfold Shape.rightAligned
  have hrl : (List.replicate (n - s.length) (1 : Int)).length = n - s.length :=
    List.length_replicate _ _
  by_cases hlt : t < n - s.length
  · rw [List.getElem?_append_left (by rw [hrl]; exact hlt)]
    have hlen : s.reverse.length ≤ n - 1 - t := by rw [List.length_reverse]; omega
    rw [List.getElem?_eq_none hlen, List.getElem?_replicate, if_pos hlt]
    rfl
  · rw [List.getElem?_append_right (by rw [hrl]; omega), hrl]
    have h1 : t - (n - s.length) < s.length := by omega
    have h2 : n - 1 - t < s.reverse.length := by rw [List.length_reverse]; omega
    rw [List.getElem?_eq_getElem h1, List.getElem?_eq_getElem h2, List.getElem_reverse]
    simp only [Option.getD_some, Option.some.injEq]
    congr 1
    omega

/-- Combining two shapes axis by axis from the last axis backwards, as the loop
of `infer_broadcast` does, and reversing, is combining their right-aligned forms
axis by axis. -/
theorem Shape.reverse_map_eq_zipWith {α : Type} (f : Int → Int → α) (A B : Shape) :
    ((List.range (max A.length B.length)).map fun j =>
        f (A.reverse[j]?.getD 1) (B.reverse[j]?.getD 1)).reverse =
      List.zipWith f (Shape.rightAligned (max A.length B.length) A)
        (Shape.rightAligned (max A.length B.length) B) := by
  have hA := Shape.rightAligned_length (max A.length B.length) A (le_max_left _ _)
  have hB := Shape.rightAligned_length (max A.length B.length) B (le_max_right _ _)
  apply List.ext_getElem?
  intro t
  by_cases ht : t < max A.length B.length
  · rw [List.getElem?_reverse (by simpa using ht)]
    simp only [List.length_map, List.length_range]
    rw [List.getElem?_map, List.getElem?_range (by omega)]
    rw [List.getElem?_zipWith,
      Shape.rightAligned_getElem _ A (le_max_left _ _) t ht,
      Shape.rightAligned_getElem _ B (le_max_right _ _) t ht]
    rfl
  · rw [List.getElem?_eq_none (by simp; omega), List.getElem?_eq_none (by simp [hA, hB]; omega)]

/-- A test on the pairs of two zipped lists is a test on the two lists combined
by that test. -/
theorem List.any_zip_eq_any_zipWith {α β : Type} (p : α × β → Bool) :
    ∀ (l1 : List α) (l2 : List β),
      (List.zip l1 l2).any p = (List.zipWith (fun a b => p (a, b)) l1 l2).any id := by
  intro l1
  induction l1 with
  | nil => intro l2; simp
  | cons a l1 ih =>
    intro l2
    cases l2 with
    | nil => simp
    | cons b l2 => simp [ih l2]

/-- A test on a list is the disjunction of the list of its outcomes. -/
theorem List.any_map_id {α : Type} (f : α → Bool) :
    ∀ l : List α, (l.map f).any id = l.any f := by
  intro l
  induction l with
  | nil => rfl
  | cons a l ih => simp only [List.map_cons, List.any_cons, ih, id]

/-- Claim C14: `infer_broadcast(A, B)` right-aligns the two shapes (the shorter
one padded on the left with 1s); if on some aligned axis the two sizes differ
and neither is 1 it returns the empty shape, and otherwise a shape of length
`max(rank A, rank B)` whose every axis is the larger of the two aligned sizes:
it computes `infer_broadcast_spec`. -/
theorem infer_broadcast_eq_spec (A B : Shape) :
    infer_broadcast A B = infer_broadcast_spec A B := by
  unfold infer_broadcast infer_broadcast_spec
  simp only
  rw [infer_broadcast_loop_eq _ _ _ 0 _ (by simp), ← List.range_eq_range']
  have hany : ((List.range (max A.length B.length)).any fun j =>
        decide (A.reverse[j]?.getD 1 ≠ B.reverse[j]?.getD 1 ∧ A.reverse[j]?.getD 1 ≠ 1 ∧
          B.reverse[j]?.getD 1 ≠ 1)) =
      (List.zip (Shape.rightAligned (max A.length B.length) A)
        (Shape.rightAligned (max A.length B.length) B)).any
        (fun p => decide (p.1 ≠ p.2 ∧ p.1 ≠ 1 ∧ p.2 ≠ 1)) := by
    rw [List.any_zip_eq_any_zipWith,
      ← Shape.reverse_map_eq_zipWith (fun a b => decide (a ≠ b ∧ a ≠ 1 ∧ b ≠ 1)) A B,
      List.any_reverse, List.any_map_id]
  rw [hany]
  by_cases hc : (List.zip (Shape.rightAligned (max A.length B.length) A)
        (Shape.rightAligned (max A.length B.length) B)).any
        (fun p => decide (p.1 ≠ p.2 ∧ p.1 ≠ 1 ∧ p.2 ≠ 1)) = true
  · rw [if_pos hc, if_pos hc]
  · rw [if_neg hc, if_neg hc]
    simp only [List.take_zero, List.nil_append]
    exact Shape.reverse_map_eq_zipWith max A B

/-! ## Matmul shape inference on operands of different rank -/

/-- For operands of different rank (both at least 2) the batch loop of
`MatmulObj::inferShape` indexes the shorter shape outside its bounds in its
first iteration. -/
theorem MatmulObj.batchLoop_rank_mismatch (A B : Shape) (hA : 2 ≤ A.length)
    (hB : 2 ≤ B.length) (hne : A.length ≠ B.length) (hA64 : A.length < SIZE_MOD)
    (hB64 : B.length < SIZE_MOD) :
    MatmulObj.batchLoop A B (max A.length B.length) (max A.length B.length - 2) 0 [] =
      .outOfRange := by
  obtain ⟨n, hn⟩ : ∃ n, max A.length B.length - 2 = n + 1 := by
    rcases Nat.lt_or_gt_of_ne hne with h | h
    · exact ⟨B.length - 3, by rw [max_eq_right (le_of_lt h)]; omega⟩
    · exact ⟨A.length - 3, by rw [max_eq_left (le_of_lt h)]; omega⟩
  rw [hn, MatmulObj.batchLoop]
  simp only [show 0 < A.length by omega, show 0 < B.length by omega, if_true, Nat.add_zero]
  rcases Nat.lt_or_gt_of_ne hne with h | h
  · rw [max_eq_right (le_of_lt h)]
    have hidx : A.length ≤ (A.length + SIZE_MOD - B.length) % SIZE_MOD := by
      rw [Nat.mod_eq_of_lt (by omega)]; omega
    rw [List.getElem?_eq_none hidx]
  · rw [max_eq_left (le_of_lt h)]
    have hidx : B.length ≤ (B.length + SIZE_MOD - A.length) % SIZE_MOD := by
      rw [Nat.mod_eq_of_lt (by omega)]; omega
    rw [List.getElem?_eq_none hidx]
    split <;> simp_all

/-- `MatmulObj::inferShape` never returns a shape for operands of different rank
(both at least 2): either no trailing pairing matches (`std::nullopt`) or the
batch loop indexes outside the shorter shape. -/
theorem MatmulObj.inferShape_rank_mismatch (A B : Shape) (hA : 2 ≤ A.length)
    (hB : 2 ≤ B.length) (hne : A.length ≠ B.length) (hA64 : A.length < SIZE_MOD)
    (hB64 : B.length < SIZE_MOD) (s : List Shape) :
    MatmulObj.inferShape [A, B] ≠ .ok s := by
  have hloop := MatmulObj.batchLoop_rank_mismatch A B hA hB hne hA64 hB64
  unfold MatmulObj.inferShape
  simp only
  rw [if_neg (by omega)]
  split
  · split
    · simp
    · rw [hloop]; simp
  · simp
/-- Claim C11 (code at the failing input): on `A = [3,4]`, `B = [2,4,5]` the
batch loop of `MatmulObj::inferShape` evaluates `shapeA[rankA - maxRank + 0]`,
that is `shapeA[2^64 - 1]`, outside `shapeA`; no shape is returned by the model,
whereas the right-aligned broadcast of the batch prefixes `[]` and `[2]` is
`[2]`. -/
theorem MatmulObj.inferShape_lower_rank_reads_outside :
    MatmulObj.inferShape [[3, 4], [2, 4, 5]] = .outOfRange ∧
    ([3, 4] : Shape).length + SIZE_MOD - max 2 3 + 0 = SIZE_MOD - 1 ∧
    infer_broadcast [] [2] = [2] := by
  decide

/-! ## Properties of Transpose and Concat shape inference -/

/-- A `size_t` below `2 ^ 31` is unchanged by the conversion to `int`. -/
theorem static_cast_int_of_lt (n : Nat) (h : n < 2147483648) : static_cast_int n = (n : Int) := by
  unfold static_cast_int
  omega

/-- A non-negative `int` is unchanged by the conversion to `size_t`. -/
theorem static_cast_size_t_of_nonneg (x : Int) (h0 : 0 ≤ x) (h1 : x < (SIZE_MOD : Int)) :
    static_cast_size_t x = x.toNat := by
  unfold static_cast_size_t
  rw [Int.emod_eq_of_lt h0 h1]

/-- The loop of `TransposeObj::inferShape` on a permutation: it ends normally,
keeps the length of `output_dim`, and afterwards `output_dim[permute[k]]` is
`input_dim[k]` for every axis `k`. -/
theorem TransposeObj.permuteLoop_perm (perm : List Int) (d : Shape) (r : Nat)
    (hpl : perm.length = r) (hdl : d.length = r) (hr : r < 2147483648)
    (hrange : ∀ (k : Nat) (p : Int), perm[k]? = some p → 0 ≤ p ∧ p < r)
    (hnd : perm.Nodup) :
    ∀ (n i : Nat) (out : Shape), i + n = r → out.length = r →
      (∀ (k : Nat) (p : Int), k < i → perm[k]? = some p → out[p.toNat]? = d[k]?) →
      ∃ out', TransposeObj.permuteLoop perm d n i out = some out' ∧ out'.length = r ∧
        ∀ (k : Nat) (p : Int), perm[k]? = some p → out'[p.toNat]? = d[k]? := by
  intro n
  induction n with
  | zero =>
    intro i out hi hlen hinv
    refine ⟨out, rfl, hlen, ?_⟩
    intro k p hk
    have hkr : k < r := by
      by_contra hcon
      rw [List.getElem?_eq_none (by omega)] at hk
      cases hk
    exact hinv k p (by omega) hk
  | succ n ih =>
    intro i out hi hlen hinv
    have hip : i < perm.length := by omega
    have hid : i < d.length := by omega
    have hpi : perm[i]? = some perm[i] := List.getElem?_eq_getElem hip
    obtain ⟨h0, h1⟩ := hrange i _ hpi
    have hcast : static_cast_size_t perm[i] = perm[i].toNat :=
      static_cast_size_t_of_nonneg _ h0 (by unfold SIZE_MOD; omega)
    rw [TransposeObj.permuteLoop, hpi, List.getElem?_eq_getElem hid]
    simp only [hcast]
    have hlt : perm[i].toNat < out.length := by omega
    rw [if_pos hlt]
    apply ih (i + 1) _ (by omega) (by simpa using hlen)
    intro k p hk hkp
    by_cases hki : k = i
    · subst hki
      rw [hpi] at hkp
      simp only [Option.some.injEq] at hkp
      subst hkp
      rw [List.getElem?_set_self hlt, List.getElem?_eq_getElem hid]
    · have hkl : k < perm.length := by omega
      have hpk : perm[k] = p := by
        rw [List.getElem?_eq_getElem hkl] at hkp
        simpa using hkp
      have hne : perm[i] ≠ p := by
        intro heq
        exact hki ((List.Nodup.getElem_inj_iff hnd).1 (hpk.trans heq.symm))
      have hp0 := (hrange k p hkp).1
      have hne2 : perm[i].toNat ≠ p.toNat := by omega
      rw [List.getElem?_set_ne hne2]
      exact hinv k p (by omega) hkp

/-- Claim C12: if the length of the permutation differs from the input rank,
`TransposeObj::inferShape` returns `std::nullopt`; for every permutation `p` of
`0..rank-1` and every input shape `d` it returns a single shape `out` of the same
rank with `out[p[i]] = d[i]` for every axis `i`. -/
theorem TransposeObj.inferShape_permutes (perm : List Int) (d : Shape)
    (hp31 : perm.length < 2147483648) (hd31 : d.length < 2147483648) :
    (perm.length ≠ d.length → TransposeObj.inferShape perm [d] = .nullopt) ∧
    (perm.Perm (List.map Int.ofNat (List.range d.length)) →
      ∃ out, TransposeObj.inferShape perm [d] = .ok [out] ∧ out.length = d.length ∧
        ∀ (i : Nat) (p : Int), perm[i]? = some p → out[p.toNat]? = d[i]?) := by
  constructor
  · intro hne
    unfold TransposeObj.inferShape
    simp only [List.getElem?_cons_zero]
    rw [static_cast_int_of_lt _ hp31, static_cast_int_of_lt _ hd31, if_pos (by omega)]
  · intro hperm
    have hlen : perm.length = d.length := by
      rw [hperm.length_eq, List.length_map, List.length_range]
    have hnd : perm.Nodup :=
      hperm.nodup_iff.2 ((List.nodup_range _).map (fun a b h => Int.ofNat.inj h))
    have hrange : ∀ (k : Nat) (p : Int), perm[k]? = some p → 0 ≤ p ∧ p < d.length := by
      intro k p hk
      have hmem : p ∈ perm := List.getElem?_mem hk
      have hmem2 := hperm.mem_iff.1 hmem
      simp only [List.mem_map, List.mem_range] at hmem2
      obtain ⟨j, hj, rfl⟩ := hmem2
      simp only [Int.ofNat_eq_coe]
      omega
    obtain ⟨out, hloop, hol, hout⟩ := TransposeObj.permuteLoop_perm perm d d.length hlen rfl
      hd31 hrange hnd d.length 0 d (by omega) rfl (fun k p hk _ => absurd hk (by omega))
    refine ⟨out, ?_, hol, hout⟩
    unfold TransposeObj.inferShape
    simp only [List.getElem?_cons_zero]
    rw [static_cast_int_of_lt _ hp31, static_cast_int_of_lt _ hd31, if_neg (by omega)]
    simp only [Int.toNat_ofNat, hloop]

/-- Instance of `inferShape_permutes`: `[2,0,1]` is a permutation of the axes of
`[2,3,4]` and the result is `[3,4,2]`; a permutation of length 2 gives
`std::nullopt`. -/
theorem TransposeObj.inferShape_permutes_witness :
    ([2, 0, 1] : List Int).Perm (List.map Int.ofNat (List.range 3)) ∧
    TransposeObj.inferShape [2, 0, 1] [[2, 3, 4]] = .ok [[3, 4, 2]] ∧
    (∃ out, TransposeObj.inferShape [2, 0, 1] [[2, 3, 4]] = .ok [out] ∧ out.length = 3 ∧
      ∀ (i : Nat) (p : Int), ([2, 0, 1] : List Int)[i]? = some p →
        out[p.toNat]? = ([2, 3, 4] : Shape)[i]?) ∧
    TransposeObj.inferShape [1, 0] [[2, 3, 4]] = .nullopt :=
  ⟨by decide, by decide,
    (TransposeObj.inferShape_permutes [2, 0, 1] [2, 3, 4] (by decide) (by decide)).2 (by decide),
    (TransposeObj.inferShape_permutes [1, 0] [2, 3, 4] (by decide) (by decide)).1 (by decide)⟩

/-- The machine addition `int_add` is the exact sum whenever that sum is in the
range of `int`. -/
theorem int_add_of_range (x y : Int) (hlo : -2147483648 ≤ x + y)
    (hhi : x + y ≤ 2147483647) : int_add x y = x + y := by
  unfold int_add
  omega

/-- The result of `int_add` is always in the range of `int`. -/
theorem int_add_range (x y : Int) :
    -2147483648 ≤ int_add x y ∧ int_add x y ≤ 2147483647 := by
  unfold int_add
  omega

/-- The inner loop of `ConcatObj::inferShape` for an input of the same rank: it
adds (in `int` arithmetic) the input's size on the concat axis to `dims` when
that axis is still ahead, and changes nothing else. -/
theorem ConcatObj.axisLoop_same_rank (k : Nat) (hk64 : k < SIZE_MOD) (s : Shape) :
    ∀ (n j : Nat) (dims : Shape), j + n = dims.length → s.length = dims.length →
      k < dims.length →
      ConcatObj.axisLoop k s n j dims =
        some (if j ≤ k then dims.set k (int_add (dims.getD k 0) (s.getD k 0)) else dims) := by
  have hcast : static_cast_size_t (k : Int) = k := by
    rw [static_cast_size_t_of_nonneg _ (by omega) (by exact_mod_cast hk64)]
    simp
  intro n
  induction n with
  | zero =>
    intro j dims hj _ hk
    rw [ConcatObj.axisLoop, if_neg (by omega)]
  | succ n ih =>
    intro j dims hj hs hk
    rw [ConcatObj.axisLoop, hcast]
    by_cases hjk : j = k
    · subst hjk
      have h1 : j < dims.length := hk
      have h2 : j < s.length := by omega
      rw [if_pos rfl, List.getElem?_eq_getElem h1, List.getElem?_eq_getElem h2]
      simp only
      rw [ih (j + 1) _ (by simp; omega) (by simpa using hs) (by simpa using hk),
        if_neg (by omega), if_pos (le_refl _)]
      simp [List.getD_eq_getElem?_getD, List.getElem?_eq_getElem h1,
        List.getElem?_eq_getElem h2]
    · rw [if_neg hjk, ih (j + 1) dims (by omega) hs hk]
      by_cases hle : j ≤ k
      · rw [if_pos (by omega), if_pos hle]
      · rw [if_neg (by omega), if_neg hle]

/-- Writing back the value an entry already has changes nothing. -/
theorem List.set_getElem_same {α : Type} (l : List α) (k : Nat) (hk : k < l.length) :
    l.set k l[k] = l := by
  apply List.ext_getElem?
  intro i
  by_cases h : k = i
  · subst h
    rw [List.getElem?_set_self hk, List.getElem?_eq_getElem hk]
  · rw [List.getElem?_set_ne h]

/-- The outer loop of `ConcatObj::inferShape` over inputs of the same rank whose
sizes on the concat axis are non-negative: as long as the total stays in the
range of `int`, it adds those sizes to `dims[k]`. -/
theorem ConcatObj.inputLoop_same_rank (k : Nat) (hk64 : k < SIZE_MOD) :
    ∀ (rest : List Shape) (dims : Shape), k < dims.length →
      (∀ s ∈ rest, s.length = dims.length) →
      0 ≤ dims.getD k 0 → (∀ s ∈ rest, 0 ≤ s.getD k 0) →
      dims.getD k 0 + (rest.map fun s => s.getD k 0).sum ≤ 2147483647 →
      ConcatObj.inputLoop k dims.length rest dims =
        some (dims.set k (dims.getD k 0 + (rest.map fun s => s.getD k 0).sum)) := by
  intro rest
  induction rest with
  | nil =>
    intro dims hk _ _ _ _
    simp [ConcatObj.inputLoop, List.getD_eq_getElem?_getD, List.getElem?_eq_getElem hk,
      List.set_getElem_same]
  | cons s rest ih =>
    intro dims hk hall h0 hnn hsum
    have hs : s.length = dims.length := hall s (List.mem_cons_self _ _)
    have hs0 : 0 ≤ s.getD k 0 := hnn s (List.mem_cons_self _ _)
    have hrest0 : 0 ≤ (rest.map fun t => t.getD k 0).sum := by
      apply List.sum_nonneg
      intro x hx
      obtain ⟨t, ht, rfl⟩ := List.mem_map.mp hx
      exact hnn t (List.mem_cons_of_mem _ ht)
    rw [List.map_cons, List.sum_cons] at hsum
    have hadd : int_add (dims.getD k 0) (s.getD k 0) = dims.getD k 0 + s.getD k 0 :=
      int_add_of_range _ _ (by omega) (by omega)
    rw [ConcatObj.inputLoop, ConcatObj.axisLoop_same_rank k hk64 s dims.length 0 dims
      (by omega) hs hk, if_pos (Nat.zero_le _), hadd]
    simp only
    have hlen : (dims.set k (dims.getD k 0 + s.getD k 0)).length = dims.length :=
      List.length_set _ _ _
    have hget : (dims.set k (dims.getD k 0 + s.getD k 0)).getD k 0 =
        dims.getD k 0 + s.getD k 0 := by
      simp [List.getD_eq_getElem?_getD, List.getElem?_set_self hk]
    have := ih (dims.set k (dims.getD k 0 + s.getD k 0)) (by rw [hlen]; exact hk)
      (fun t ht => by rw [hlen]; exact hall t (List.mem_cons_of_mem _ ht))
      (by rw [hget]; omega) (fun t ht => hnn t (List.mem_cons_of_mem _ ht))
      (by rw [hget]; omega)
    rw [hlen] at this
    rw [this]
    simp [List.getD_eq_getElem?_getD, List.getElem?_set_self hk, add_assoc]

/-- When the sizes on the concat axis add up to more than the largest `int`, the
addition of `ConcatObj::inferShape` leaves the range: for the shapes
`[2147483647]` and `[1]` the model's wrapped result is `-2147483648`. -/
theorem ConcatObj.inferShape_overflow :
    ConcatObj.inferShape 0 [[2147483647], [1]] = .ok [[-2147483648]] := by
  decide

/-- Claim C13: for every non-empty list of input shapes that all have the rank
of the first one, whose sizes on the concat axis `k` in `[0, rank)` are
non-negative and add up to at most the largest `int` (so that no addition
overflows), `ConcatObj::inferShape` returns the single shape equal to the first
input's shape except at axis `k`, where it is the sum of dimension `k` over all
inputs; no other dimension of the later inputs enters the result. -/
theorem ConcatObj.inferShape_sums_axis (first : Shape) (rest : List Shape) (k : Nat)
    (hk : k < first.length) (hk64 : k < SIZE_MOD)
    (hrank : ∀ s ∈ rest, s.length = first.length)
    (hnn : ∀ s ∈ first :: rest, 0 ≤ s.getD k 0)
    (hsum : ((first :: rest).map fun s => s.getD k 0).sum ≤ 2147483647) :
    ConcatObj.inferShape k (first :: rest) =
      .ok [first.set k (((first :: rest).map fun s => s.getD k 0).sum)] := by
  unfold ConcatObj.inferShape
  simp only
  rw [ConcatObj.inputLoop_same_rank k hk64 rest first hk hrank
    (hnn first (List.mem_cons_self _ _)) (fun s hs => hnn s (List.mem_cons_of_mem _ hs))
    (by simpa using hsum)]
  simp

/-- Instance of `inferShape_sums_axis`: concatenating `[2,3,4]`, `[2,5,4]` and
`[7,1,9]` on axis 1 gives `[2,9,4]`. -/
theorem ConcatObj.inferShape_sums_axis_witness :
    ConcatObj.inferShape 1 [[2, 3, 4], [2, 5, 4], [7, 1, 9]] = .ok [[2, 9, 4]] :=
  ConcatObj.inferShape_sums_axis [2, 3, 4] [[2, 5, 4], [7, 1, 9]] 1 (by decide) (by decide)
    (by decide) (by decide) (by decide)

/-! ## Properties of graph construction and validation -/

/-- Every graph extends itself. -/
theorem GraphObj.Extends.refl (op : Nat) (g : GraphObj) : GraphObj.Extends op g g :=
  ⟨fun _ _ h => h, fun _ _ h => h, fun _ _ h => h, fun _ => rfl, fun _ => rfl,
    fun _ => Or.inl rfl, rfl, rfl⟩

/-- Extension is transitive. -/
theorem GraphObj.Extends.trans {op : Nat} {g h k : GraphObj} (h1 : GraphObj.Extends op g h)
    (h2 : GraphObj.Extends op h k) : GraphObj.Extends op g k :=
  ⟨fun t x hx => h2.targets t x (h1.targets t x hx),
    fun o x hx => h2.preds o x (h1.preds o x hx),
    fun o x hx => h2.succs o x (h1.succs o x hx),
    fun o => (h2.inputs o).trans (h1.inputs o),
    fun o => (h2.outputs o).trans (h1.outputs o),
    fun t => by
      rcases h2.source t with e | e
      · rw [e]; exact h1.source t
      · exact Or.inr e,
    h2.ops.trans h1.ops, h2.sorted.trans h1.sorted⟩

/-- Registering a consumer extends the graph. -/
theorem GraphObj.Extends.addTarget (op : Nat) (g : GraphObj) (t x : Nat) :
    GraphObj.Extends op g (g.addTarget t x) := by
  refine ⟨?_, fun _ _ h => h, fun _ _ h => h, fun _ => rfl, fun _ => rfl, ?_, rfl, rfl⟩
  · intro t' y hy
    simp only [GraphObj.addTarget, GraphObj.setTensor]
    split
    · next h => subst h; exact List.mem_append_left _ hy
    · exact hy
  · intro t'
    simp only [GraphObj.addTarget, GraphObj.setTensor]
    split
    · next h => subst h; exact Or.inl rfl
    · exact Or.inl rfl

/-- Adding a predecessor edge extends the graph. -/
theorem GraphObj.Extends.addPredecessors (op : Nat) (g : GraphObj) (o x : Nat) :
    GraphObj.Extends op g (g.addPredecessors o x) := by
  refine ⟨fun _ _ h => h, ?_, ?_, ?_, ?_, fun _ => Or.inl rfl, rfl, rfl⟩
  all_goals
    intro o'
    simp only [GraphObj.addPredecessors, GraphObj.setOp]
    split
    · next h => subst h; first | rfl | (intro y hy; first | exact List.mem_append_left _ hy | exact hy)
    · first | rfl | exact fun _ hy => hy

/-- Adding a successor edge extends the graph. -/
theorem GraphObj.Extends.addSuccessors (op : Nat) (g : GraphObj) (o x : Nat) :
    GraphObj.Extends op g (g.addSuccessors o x) := by
  refine ⟨fun _ _ h => h, ?_, ?_, ?_, ?_, fun _ => Or.inl rfl, rfl, rfl⟩
  all_goals
    intro o'
    simp only [GraphObj.addSuccessors, GraphObj.setOp]
    split
    · next h => subst h; first | rfl | (intro y hy; first | exact List.mem_append_left _ hy | exact hy)
    · first | rfl | exact fun _ hy => hy

/-- Making `op` the source of a tensor extends the graph. -/
theorem GraphObj.Extends.setSource (op : Nat) (g : GraphObj) (t : Nat) :
    GraphObj.Extends op g (g.setSource t (some op)) := by
  refine ⟨?_, fun _ _ h => h, fun _ _ h => h, fun _ => rfl, fun _ => rfl, ?_, rfl, rfl⟩
  · intro t' y hy
    simp only [GraphObj.setSource, GraphObj.setTensor]
    split
    · next h => subst h; exact hy
    · exact hy
  · intro t'
    simp only [GraphObj.setSource, GraphObj.setTensor]
    split
    · exact Or.inr rfl
    · exact Or.inl rfl
/-- One pass of the first loop of `addOperatorAndConnect`: the graph is
extended, no source changes, `op` becomes a consumer of the input, and the edges
to the input's source are present. -/
theorem GraphObj.connectInput_spec (g : GraphObj) (op t : Nat) :
    GraphObj.Extends op g (g.connectInput op t) ∧
    (∀ t', ((g.connectInput op t).tensorAt t').source = (g.tensorAt t').source) ∧
    op ∈ ((g.connectInput op t).tensorAt t).targets ∧
    ∀ p, (g.tensorAt t).source = some p →
      p ∈ ((g.connectInput op t).opAt op).predecessors ∧
      op ∈ ((g.connectInput op t).opAt p).successors := by
  have hsrc1 : ∀ t', ((g.addTarget t op).tensorAt t').source = (g.tensorAt t').source := by
    intro t'
    simp only [GraphObj.addTarget, GraphObj.setTensor]
    split
    · next h => subst h; rfl
    · rfl
  have htg1 : op ∈ ((g.addTarget t op).tensorAt t).targets := by
    simp [GraphObj.addTarget, GraphObj.setTensor]
  unfold GraphObj.connectInput
  simp only
  cases hs : ((g.addTarget t op).tensorAt t).source with
  | none =>
    simp only
    refine ⟨GraphObj.Extends.addTarget op g t op, hsrc1, htg1, ?_⟩
    intro p hp
    rw [hsrc1 t, hp] at hs
    cases hs
  | some pred =>
    simp only
    have hE : GraphObj.Extends op g
        (((g.addTarget t op).addSuccessors pred op).addPredecessors op pred) :=
      ((GraphObj.Extends.addTarget op g t op).trans
        (GraphObj.Extends.addSuccessors op _ pred op)).trans
        (GraphObj.Extends.addPredecessors op _ op pred)
    refine ⟨hE, fun t' => hsrc1 t', htg1, ?_⟩
    intro p hp
    rw [hsrc1 t, hp] at hs
    simp only [Option.some.injEq] at hs
    subst hs
    constructor
    · simp [GraphObj.addPredecessors, GraphObj.setOp]
    · apply (GraphObj.Extends.addPredecessors op _ op p).succs
      simp [GraphObj.addSuccessors, GraphObj.setOp]

/-- The first loop of `addOperatorAndConnect` over the inputs `L`. -/
theorem GraphObj.connectInputs_spec (op : Nat) :
    ∀ (L : List Nat) (g : GraphObj),
      GraphObj.Extends op g (L.foldl (fun h input => h.connectInput op input) g) ∧
      (∀ t', ((L.foldl (fun h input => h.connectInput op input) g).tensorAt t').source =
        (g.tensorAt t').source) ∧
      ∀ t ∈ L, op ∈ ((L.foldl (fun h input => h.connectInput op input) g).tensorAt t).targets ∧
        ∀ p, (g.tensorAt t).source = some p →
          p ∈ ((L.foldl (fun h input => h.connectInput op input) g).opAt op).predecessors ∧
          op ∈ ((L.foldl (fun h input => h.connectInput op input) g).opAt p).successors := by
  intro L
  induction L with
  | nil =>
    intro g
    exact ⟨GraphObj.Extends.refl op g, fun _ => rfl, fun t ht => absurd ht (List.not_mem_nil _)⟩
  | cons a L ih =>
    intro g
    obtain ⟨hE1, hs1, ht1, hp1⟩ := g.connectInput_spec op a
    obtain ⟨hE2, hs2, hall⟩ := ih (g.connectInput op a)
    simp only [List.foldl_cons]
    refine ⟨hE1.trans hE2, fun t' => (hs2 t').trans (hs1 t'), ?_⟩
    intro t ht
    by_cases hmem : t ∈ L
    · obtain ⟨h1, h2⟩ := hall t hmem
      exact ⟨h1, fun p hp => h2 p (by rw [hs1 t]; exact hp)⟩
    · have hta : t = a := by
        rcases List.mem_cons.1 ht with h | h
        · exact h
        · exact absurd h hmem
      subst hta
      refine ⟨hE2.targets _ _ ht1, fun p hp => ?_⟩
      obtain ⟨h1, h2⟩ := hp1 p hp
      exact ⟨hE2.preds _ _ h1, hE2.succs _ _ h2⟩

/-- The inner loop of the second loop of `addOperatorAndConnect` over the
consumers `L` of an output: tensors are untouched and the edges between `op` and
every consumer are present. -/
theorem GraphObj.connectTargets_spec (op : Nat) :
    ∀ (L : List Nat) (g : GraphObj),
      GraphObj.Extends op g
        (L.foldl (fun h succ => (h.addPredecessors succ op).addSuccessors op succ) g) ∧
      (L.foldl (fun h succ => (h.addPredecessors succ op).addSuccessors op succ) g).tensorAt =
        g.tensorAt ∧
      ∀ c ∈ L,
        op ∈ ((L.foldl (fun h succ => (h.addPredecessors succ op).addSuccessors op succ)
          g).opAt c).predecessors ∧
        c ∈ ((L.foldl (fun h succ => (h.addPredecessors succ op).addSuccessors op succ)
          g).opAt op).successors := by
  intro L
  induction L with
  | nil =>
    intro g
    exact ⟨GraphObj.Extends.refl op g, rfl, fun t ht => absurd ht (List.not_mem_nil _)⟩
  | cons a L ih =>
    intro g
    obtain ⟨hE2, ht2, hall⟩ := ih ((g.addPredecessors a op).addSuccessors op a)
    have hE1 : GraphObj.Extends op g ((g.addPredecessors a op).addSuccessors op a) :=
      (GraphObj.Extends.addPredecessors op g a op).trans
        (GraphObj.Extends.addSuccessors op _ op a)
    simp only [List.foldl_cons]
    refine ⟨hE1.trans hE2, ht2.trans rfl, ?_⟩
    intro c hc
    by_cases hmem : c ∈ L
    · exact hall c hmem
    · have hca : c = a := by
        rcases List.mem_cons.1 hc with h | h
        · exact h
        · exact absurd h hmem
      subst hca
      constructor
      · apply hE2.preds
        apply (GraphObj.Extends.addSuccessors op _ op c).preds
        simp [GraphObj.addPredecessors, GraphObj.setOp]
      · apply hE2.succs
        simp [GraphObj.addSuccessors, GraphObj.setOp]

/-- One pass of the second loop of `addOperatorAndConnect`: the graph is
extended, only the source of the output changes, it becomes `op`, and the edges
between `op` and every consumer of the output are present. -/
theorem GraphObj.connectOutput_spec (g : GraphObj) (op t : Nat) :
    GraphObj.Extends op g (g.connectOutput op t) ∧
    (∀ t', t' ≠ t → ((g.connectOutput op t).tensorAt t').source = (g.tensorAt t').source) ∧
    ((g.connectOutput op t).tensorAt t).source = some op ∧
    ∀ c ∈ (g.tensorAt t).targets,
      op ∈ ((g.connectOutput op t).opAt c).predecessors ∧
      c ∈ ((g.connectOutput op t).opAt op).successors := by
  have htg : ((g.setSource t (some op)).tensorAt t).targets = (g.tensorAt t).targets := by
    simp [GraphObj.setSource, GraphObj.setTensor]
  obtain ⟨hE, hT, hall⟩ := GraphObj.connectTargets_spec op
    ((g.setSource t (some op)).tensorAt t).targets (g.setSource t (some op))
  unfold GraphObj.connectOutput
  simp only
  refine ⟨(GraphObj.Extends.setSource op g t).trans hE, ?_, ?_, ?_⟩
  · intro t' hne
    rw [hT]
    simp [GraphObj.setSource, GraphObj.setTensor, hne]
  · rw [hT]
    simp [GraphObj.setSource, GraphObj.setTensor]
  · intro c hc
    exact hall c (by rw [htg]; exact hc)

/-- The second loop of `addOperatorAndConnect` over the outputs `L`. -/
theorem GraphObj.connectOutputs_spec (op : Nat) :
    ∀ (L : List Nat) (g : GraphObj),
      GraphObj.Extends op g (L.foldl (fun h output => h.connectOutput op output) g) ∧
      (∀ t', t' ∉ L →
        ((L.foldl (fun h output => h.connectOutput op output) g).tensorAt t').source =
          (g.tensorAt t').source) ∧
      ∀ t ∈ L,
        ((L.foldl (fun h output => h.connectOutput op output) g).tensorAt t).source = some op ∧
        ∀ c ∈ (g.tensorAt t).targets,
          op ∈ ((L.foldl (fun h output => h.connectOutput op output) g).opAt c).predecessors ∧
          c ∈ ((L.foldl (fun h output => h.connectOutput op output) g).opAt op).successors := by
  intro L
  induction L with
  | nil =>
    intro g
    exact ⟨GraphObj.Extends.refl op g, fun _ _ => rfl, fun t ht => absurd ht (List.not_mem_nil _)⟩
  | cons a L ih =>
    intro g
    obtain ⟨hE1, hs1, hsrc1, hc1⟩ := g.connectOutput_spec op a
    obtain ⟨hE2, hs2, hall⟩ := ih (g.connectOutput op a)
    simp only [List.foldl_cons]
    refine ⟨hE1.trans hE2, ?_, ?_⟩
    · intro t' ht'
      rw [hs2 t' (fun h => ht' (List.mem_cons_of_mem _ h)),
        hs1 t' (fun h => ht' (h ▸ List.mem_cons_self _ _))]
    · intro t ht
      by_cases hmem : t ∈ L
      · obtain ⟨h1, h2⟩ := hall t hmem
        exact ⟨h1, fun c hc => h2 c (hE1.targets _ _ hc)⟩
      · have hta : t = a := by
          rcases List.mem_cons.1 ht with h | h
          · exact h
          · exact absurd h hmem
        subst hta
        refine ⟨?_, fun c hc => ?_⟩
        · rcases hE2.source t with e | e
          · rw [e]; exact hsrc1
          · exact e
        · obtain ⟨h1, h2⟩ := hc1 c hc
          exact ⟨hE2.preds _ _ h1, hE2.succs _ _ h2⟩
/-- Claim C17: after `addOperatorAndConnect(op)`, `op` is appended to the
operator list and the `sorted` flag is false; for every input tensor `t` of
`op`, `op` is a target of `t`, and if `t` has a source `p` (before the call, and
likewise after it) then `p` is in `op`'s predecessors and `op` is in `p`'s
successors; for every output tensor `t` of `op`, the source of `t` is `op`, and
for every operator `c` registered as a target of `t` before the call, `op` is in
`c`'s predecessors and `c` is in `op`'s successors. -/
theorem GraphObj.addOperatorAndConnect_spec (g : GraphObj) (op : Nat) :
    (g.addOperatorAndConnect op).ops = g.ops ++ [op] ∧
    (g.addOperatorAndConnect op).sorted = false ∧
    (∀ t ∈ (g.opAt op).inputs,
      op ∈ ((g.addOperatorAndConnect op).tensorAt t).targets ∧
      (∀ p, (g.tensorAt t).source = some p →
        p ∈ ((g.addOperatorAndConnect op).opAt op).predecessors ∧
        op ∈ ((g.addOperatorAndConnect op).opAt p).successors) ∧
      (∀ p, ((g.addOperatorAndConnect op).tensorAt t).source = some p →
        p ∈ ((g.addOperatorAndConnect op).opAt op).predecessors ∧
        op ∈ ((g.addOperatorAndConnect op).opAt p).successors)) ∧
    (∀ t ∈ (g.opAt op).outputs,
      ((g.addOperatorAndConnect op).tensorAt t).source = some op ∧
      ∀ c ∈ (g.tensorAt t).targets,
        op ∈ ((g.addOperatorAndConnect op).opAt c).predecessors ∧
        c ∈ ((g.addOperatorAndConnect op).opAt op).successors) := by
  obtain ⟨hE1, hs1, hin⟩ := GraphObj.connectInputs_spec op (g.opAt op).inputs
    { g with sorted := false, ops := g.ops ++ [op] }
  generalize hg1 : (g.opAt op).inputs.foldl (fun h input => h.connectInput op input)
    { g with sorted := false, ops := g.ops ++ [op] } = g1 at hE1 hs1 hin
  obtain ⟨hE2, hs2, hout⟩ := GraphObj.connectOutputs_spec op (g1.opAt op).outputs g1
  have hdef : g.addOperatorAndConnect op =
      (g1.opAt op).outputs.foldl (fun h output => h.connectOutput op output) g1 := by
    unfold GraphObj.addOperatorAndConnect
    simp only
    rw [hg1]
  have houtputs : (g1.opAt op).outputs = (g.opAt op).outputs := hE1.outputs op
  rw [hdef]
  refine ⟨by rw [hE2.ops, hE1.ops], by rw [hE2.sorted, hE1.sorted], ?_, ?_⟩
  · intro t ht
    obtain ⟨htg, hp⟩ := hin t ht
    have hpre : ∀ p, (g.tensorAt t).source = some p →
        p ∈ (((g1.opAt op).outputs.foldl (fun h output => h.connectOutput op output)
          g1).opAt op).predecessors ∧
        op ∈ (((g1.opAt op).outputs.foldl (fun h output => h.connectOutput op output)
          g1).opAt p).successors := by
      intro p hsp
      obtain ⟨h1, h2⟩ := hp p hsp
      exact ⟨hE2.preds _ _ h1, hE2.succs _ _ h2⟩
    refine ⟨hE2.targets _ _ htg, hpre, ?_⟩
    intro p hsp
    by_cases hmem : t ∈ (g1.opAt op).outputs
    · obtain ⟨hsrc, hc⟩ := hout t hmem
      rw [hsrc] at hsp
      simp only [Option.some.injEq] at hsp
      subst hsp
      exact hc op htg
    · rw [hs2 t hmem, hs1 t] at hsp
      exact hpre p hsp
  · intro t ht
    obtain ⟨hsrc, hc⟩ := hout t (by rw [houtputs]; exact ht)
    exact ⟨hsrc, fun c hcm => hc c (hE1.targets _ _ hcm)⟩

/-- If the assertions of the first loop of `checkValid` fail for some listed
tensor, `checkValid` aborts. -/
theorem GraphObj.checkValid_none_of_checkTensor (g : GraphObj) (t : Nat) (ht : t ∈ g.tensors)
    (hc : g.checkTensor t = false) : g.checkValid = none := by
  unfold GraphObj.checkValid
  rw [if_pos]
  intro hall
  rw [List.all_eq_true] at hall
  rw [hall t ht] at hc
  cases hc

/-- Claim C18: `checkValid` never returns true on a graph whose tensor list
contains a tensor with no source and no targets: on every such graph the call
fails its assertion. -/
theorem GraphObj.checkValid_rejects_orphan (g : GraphObj) (t : Nat) (ht : t ∈ g.tensors)
    (hs : (g.tensorAt t).source = none) (htg : (g.tensorAt t).targets = []) :
    g.checkValid = none ∧ g.checkValid ≠ some true := by
  have h : g.checkValid = none := by
    apply g.checkValid_none_of_checkTensor t ht
    simp [GraphObj.checkTensor, hs, htg]
  exact ⟨h, by rw [h]; simp⟩

/-- Right after `addTensor` of a fresh tensor, `checkValid` aborts, whatever the
graph was. -/
theorem GraphObj.checkValid_addTensor (g : GraphObj) (ptr : Nat) (dim : Shape) (fuid : Nat) :
    (g.addTensor ptr dim fuid).checkValid = none := by
  apply GraphObj.checkValid_none_of_checkTensor _ ptr
  · simp [GraphObj.addTensor]
  · simp [GraphObj.checkTensor, GraphObj.addTensor, GraphObj.setTensor]

/-- Instance of `checkValid_rejects_orphan`: the three-operator chain with a
fresh tensor added at address 7. -/
theorem GraphObj.checkValid_rejects_orphan_witness :
    7 ∈ (exampleChain.addTensor 7 [2, 3] 9).tensors ∧
    ((exampleChain.addTensor 7 [2, 3] 9).tensorAt 7).source = none ∧
    ((exampleChain.addTensor 7 [2, 3] 9).tensorAt 7).targets = [] ∧
    (exampleChain.addTensor 7 [2, 3] 9).checkValid = none :=
  ⟨by decide, rfl, rfl,
    (GraphObj.checkValid_rejects_orphan (exampleChain.addTensor 7 [2, 3] 9) 7 (by decide)
      rfl rfl).1⟩

/-! ## Properties of the rewriter -/

/-- A permutation vector of rank at least 2 whose last two entries are swapped
passes the test of `optimize`. -/
theorem swapsLastTwo_of_swap (perm : List Int) (hr : 2 ≤ perm.length)
    (hr31 : perm.length < 2147483648)
    (h1 : perm[perm.length - 1]? = some ((perm.length - 2 : Nat) : Int))
    (h2 : perm[perm.length - 2]? = some ((perm.length - 1 : Nat) : Int)) :
    swapsLastTwo perm perm.length = some true := by
  have e1 : (perm.length + SIZE_MOD - 1) % SIZE_MOD = perm.length - 1 := by
    unfold SIZE_MOD; omega
  have e2 : (perm.length + SIZE_MOD - 2) % SIZE_MOD = perm.length - 2 := by
    unfold SIZE_MOD; omega
  unfold swapsLastTwo
  rw [e1, e2, h1, h2]
  simp only
  rw [static_cast_int_of_lt _ (by omega), static_cast_int_of_lt _ (by omega)]
  simp

/-- On the graph that consists of the pattern alone, `X -> T -> M` with `X` and
the other operand `Z` graph inputs, in which the Transpose `T` (any permutation
of rank at least 2 whose last two entries are swapped) feeds the first operand
of the Matmul `M` (`transA = false`), `optimize` returns a graph in which `M`
has `transA = true` and inputs exactly `[X, Z]`, and `T` and `T`'s output tensor
are gone; symmetrically, when `T` feeds the second operand and
`transB = false`, afterwards `transB = true` and the second input of `M` is `X`.
The other flag of `M` is arbitrary and unchanged. -/
theorem GraphObj.optimize_fuses_lone_transpose (perm : List Int) (flag : Bool)
    (hr : 2 ≤ perm.length) (hr31 : perm.length < 2147483648)
    (h1 : perm[perm.length - 1]? = some ((perm.length - 2 : Nat) : Int))
    (h2 : perm[perm.length - 2]? = some ((perm.length - 1 : Nat) : Int)) :
    ((exampleFuseA perm flag).checkValid = some true ∧
      ∃ g', (exampleFuseA perm flag).optimize = some (some g') ∧
        (g'.opAt 11).transA = true ∧ (g'.opAt 11).transB = flag ∧
        (g'.opAt 11).inputs = [0, 1] ∧ 10 ∉ g'.ops ∧ 2 ∉ g'.tensors) ∧
    ((exampleFuseB perm flag).checkValid = some true ∧
      ∃ g', (exampleFuseB perm flag).optimize = some (some g') ∧
        (g'.opAt 11).transB = true ∧ (g'.opAt 11).transA = flag ∧
        (g'.opAt 11).inputs = [1, 0] ∧ 10 ∉ g'.ops ∧ 2 ∉ g'.tensors) := by
  have hs := swapsLastTwo_of_swap perm hr hr31 h1 h2
  refine ⟨⟨rfl, ?_⟩, ⟨rfl, ?_⟩⟩
  · simp [GraphObj.optimize, GraphObj.optimize_loop, GraphObj.tryRuleA, GraphObj.topo_sort,
      GraphObj.tryRuleB, exampleFuseA, GraphObj.fusableSource, hs, hr,
      GraphObj.fuseTranspose, GraphObj.setTransA, GraphObj.setOp, GraphObj.detachInputs,
      GraphObj.removeTarget, GraphObj.setTensor, GraphObj.bypassOutputs,
      GraphObj.bypassTargets, GraphObj.setSource, GraphObj.removePredecessors,
      GraphObj.replaceInput, GraphObj.unlinkPredecessors, GraphObj.unlinkSuccessors,
      GraphObj.removeSuccessors, GraphObj.removeTensor, GraphObj.removeOperator]
  · simp [GraphObj.optimize, GraphObj.optimize_loop, GraphObj.tryRuleA, GraphObj.topo_sort,
      GraphObj.tryRuleB, exampleFuseB, GraphObj.fusableSource, hs, hr,
      GraphObj.fuseTranspose, GraphObj.setTransB, GraphObj.setOp, GraphObj.detachInputs,
      GraphObj.removeTarget, GraphObj.setTensor, GraphObj.bypassOutputs,
      GraphObj.bypassTargets, GraphObj.setSource, GraphObj.removePredecessors,
      GraphObj.replaceInput, GraphObj.unlinkPredecessors, GraphObj.unlinkSuccessors,
      GraphObj.removeSuccessors, GraphObj.removeTensor, GraphObj.removeOperator]

/-- Claim C16 (code at the failing input): on the sorted, valid graph
`M = Matmul(TA(X), TB(Z))` with operator list `[TA, Q, TB, M]`, both Transposes
with permutation `[1,0]` and both flags of `M` false, `optimize` fuses `TA` into
`transA` and erases it from the operator list; the iterator, which stood on `M`
at position 3, then stands at the end of the shortened list `[Q, TB, M]` and the
loop ends: `TB` still feeds the second operand of `M`, `transB` is still false,
and `TB` and its output tensor are still in the graph. -/
theorem GraphObj.optimize_skips_second_operand :
    exampleBothOperands.checkValid = some true ∧
    ({ exampleBothOperands with sorted := false } : GraphObj).topo_sort =
      some (true, exampleBothOperands) ∧
    (exampleBothOperands.opAt 12).inputs = [2, 3] ∧
    (exampleBothOperands.tensorAt 3).source = some 11 ∧
    (exampleBothOperands.opAt 11).inputs = [1] ∧
    ((exampleBothOperands.optimize.bind id).map fun g =>
      (g.ops, g.tensors, (g.opAt 12).transA, (g.opAt 12).transB, (g.opAt 12).inputs,
        (g.tensorAt 3).source)) =
      some ([13, 11, 12], [0, 1, 3, 4, 5], true, false, [0, 3], some 11) :=
  ⟨rfl, rfl, rfl, rfl, rfl, rfl⟩

/-- On `X -> T1 -> T2 -> Y`, for all permutations of one rank (at least 2) whose
last two entries are swapped, `optimize` removes both Transposes and their
output tensors and makes `Y` read `X`, and leaves `X` without targets. -/
theorem GraphObj.optimize_double_transpose_family (perm1 perm2 : List Int)
    (hr : 2 ≤ perm1.length) (hr31 : perm1.length < 2147483648)
    (hlen : perm2.length = perm1.length)
    (h1 : perm1[perm1.length - 1]? = some ((perm1.length - 2 : Nat) : Int))
    (h2 : perm1[perm1.length - 2]? = some ((perm1.length - 1 : Nat) : Int))
    (h3 : perm2[perm1.length - 1]? = some ((perm1.length - 2 : Nat) : Int))
    (h4 : perm2[perm1.length - 2]? = some ((perm1.length - 1 : Nat) : Int)) :
    ∃ g', (exampleDoubleTranspose perm1 perm2).optimize = some (some g') ∧
      g'.ops = [12] ∧ g'.tensors = [0, 3] ∧ (g'.opAt 12).inputs = [0] ∧
      (g'.tensorAt 0).targets = [] ∧ (g'.tensorAt 0).source = none := by
  have hs1 := swapsLastTwo_of_swap perm1 hr hr31 h1 h2
  have hs2 : swapsLastTwo perm2 perm1.length = some true := by
    have := swapsLastTwo_of_swap perm2 (by omega) (by omega) (by rw [hlen]; exact h3)
      (by rw [hlen]; exact h4)
    rw [hlen] at this
    exact this
  simp [GraphObj.optimize, GraphObj.optimize_loop, GraphObj.tryRuleA, GraphObj.topo_sort,
    GraphObj.tryRuleB, exampleDoubleTranspose, hs1, hs2, hlen,
    GraphObj.eliminatePair, GraphObj.setOp, GraphObj.detachInputs,
    GraphObj.removeTarget, GraphObj.setTensor, GraphObj.bypassOutputs,
    GraphObj.bypassTargets, GraphObj.setSource, GraphObj.removePredecessors,
    GraphObj.replaceInput, GraphObj.unlinkPredecessors, GraphObj.unlinkSuccessors,
    GraphObj.removeSuccessors, GraphObj.removeTensor, GraphObj.removeOperator,
    OperatorObj.blank]

/-- Claim C15 (code at the failing input): on the sorted, valid graph
`X -> T1 -> T2 -> Y` with both permutations `[0,1,3,2]`, `optimize` removes `T1`,
`T2` and their output tensors and makes `Y` read `X`, but it leaves `X` without
any target: `Y` is not registered as a consumer of `X`, and `checkValid` aborts
on the resulting graph. -/
theorem GraphObj.optimize_double_transpose_drops_consumer :
    (exampleDoubleTranspose [0, 1, 3, 2] [0, 1, 3, 2]).checkValid = some true ∧
    (((exampleDoubleTranspose [0, 1, 3, 2] [0, 1, 3, 2]).optimize.bind id).map
      fun g => (g.observe [0] [12], g.checkValid)) =
      some (([12], [0, 3], [{ source := none, targets := [], fuid := 0 }],
        [{ inputs := [0], outputs := [3], predecessors := [], successors := [] }]), none) :=
  ⟨rfl, rfl⟩

/-- Claim C20 (code at the failing input): on `X -> T1 -> T2 -> Y` with
permutations `[1,0,3,2]` (which also swaps axes 0 and 1) and `[0,1,3,2]`,
`optimize` removes both Transposes and makes `Y` read `X`, although the two
Transposes together turn the shape `[2,3,4,5]` into `[3,2,4,5]`.  A pair whose
first permutation `[1,0,2,3]` does not swap the last two axes is left in the
graph. -/
theorem GraphObj.optimize_removes_pair_moving_other_axes :
    (((exampleDoubleTranspose [1, 0, 3, 2] [0, 1, 3, 2]).optimize.bind id).map
      fun g => (g.ops, g.tensors, (g.opAt 12).inputs)) = some ([12], [0, 3], [0]) ∧
    TransposeObj.inferShape [1, 0, 3, 2] [[2, 3, 4, 5]] = .ok [[3, 2, 5, 4]] ∧
    TransposeObj.inferShape [0, 1, 3, 2] [[3, 2, 5, 4]] = .ok [[3, 2, 4, 5]] ∧
    (((exampleDoubleTranspose [1, 0, 2, 3] [0, 1, 3, 2]).optimize.bind id).map
      fun g => (g.ops, g.tensors, (g.opAt 12).inputs)) = some ([10, 11, 12], [0, 1, 2, 3], [2]) := by
  decide

/-! ## Termination of the rewriter -/

/-- Every graph has its own operator list and flags. -/
theorem GraphObj.KeepsFlags.same (g : GraphObj) : GraphObj.KeepsFlags g g :=
  ⟨rfl, fun _ => rfl, fun _ => rfl⟩

/-- Keeping the operator list and the flags is transitive. -/
theorem GraphObj.KeepsFlags.andThen {g h k : GraphObj} (h1 : GraphObj.KeepsFlags g h)
    (h2 : GraphObj.KeepsFlags h k) : GraphObj.KeepsFlags g k :=
  ⟨h2.ops.trans h1.ops, fun o => (h2.transA o).trans (h1.transA o),
    fun o => (h2.transB o).trans (h1.transB o)⟩

/-- Replacing a tensor object keeps the operator list and the flags. -/
theorem GraphObj.KeepsFlags.setTensor (g : GraphObj) (t : Nat) (v : TensorObj) :
    GraphObj.KeepsFlags g (g.setTensor t v) :=
  ⟨rfl, fun _ => rfl, fun _ => rfl⟩

/-- Replacing an operator object by one with the same flags keeps the operator
list and the flags. -/
theorem GraphObj.KeepsFlags.setOp (g : GraphObj) (o : Nat) (v : OperatorObj)
    (hA : v.transA = (g.opAt o).transA) (hB : v.transB = (g.opAt o).transB) :
    GraphObj.KeepsFlags g (g.setOp o v) := by
  refine ⟨rfl, ?_, ?_⟩
  · intro o'
    simp only [GraphObj.setOp]
    split
    · next h => subst h; exact hA
    · rfl
  · intro o'
    simp only [GraphObj.setOp]
    split
    · next h => subst h; exact hB
    · rfl

/-- A loop whose body keeps the operator list and the flags keeps them. -/
theorem GraphObj.KeepsFlags.foldl (f : GraphObj → Nat → GraphObj)
    (hf : ∀ g x, GraphObj.KeepsFlags g (f g x)) :
    ∀ (L : List Nat) (g : GraphObj), GraphObj.KeepsFlags g (L.foldl f g) := by
  intro L
  induction L with
  | nil => intro g; exact GraphObj.KeepsFlags.same g
  | cons a L ih => intro g; exact (hf g a).andThen (ih (f g a))

/-- Pruning predecessor edges keeps the operator list and the flags. -/
theorem GraphObj.KeepsFlags.removePredecessors (g : GraphObj) (o x : Nat) :
    GraphObj.KeepsFlags g (g.removePredecessors o x) :=
  GraphObj.KeepsFlags.setOp g o _ rfl rfl

/-- Pruning successor edges keeps the operator list and the flags. -/
theorem GraphObj.KeepsFlags.removeSuccessors (g : GraphObj) (o x : Nat) :
    GraphObj.KeepsFlags g (g.removeSuccessors o x) :=
  GraphObj.KeepsFlags.setOp g o _ rfl rfl

/-- Re-pointing an input keeps the operator list and the flags. -/
theorem GraphObj.KeepsFlags.replaceInput (g : GraphObj) (o t1 t2 : Nat) :
    GraphObj.KeepsFlags g (g.replaceInput o t1 t2) :=
  GraphObj.KeepsFlags.setOp g o _ rfl rfl

/-- The loop over the inputs keeps the operator list and the flags. -/
theorem GraphObj.KeepsFlags.detachInputs (g : GraphObj) (T : Nat) :
    GraphObj.KeepsFlags g (g.detachInputs T) :=
  GraphObj.KeepsFlags.foldl (fun h input => h.removeTarget input T)
    (fun h x => GraphObj.KeepsFlags.setTensor h x _) _ g

/-- The loop over the predecessors keeps the operator list and the flags. -/
theorem GraphObj.KeepsFlags.unlinkPredecessors (g : GraphObj) (T : Nat) :
    GraphObj.KeepsFlags g (g.unlinkPredecessors T) :=
  GraphObj.KeepsFlags.foldl (fun h predecessor => h.removeSuccessors predecessor T)
    (fun h x => GraphObj.KeepsFlags.removeSuccessors h x T) _ g

/-- The loop over the successors keeps the operator list and the flags. -/
theorem GraphObj.KeepsFlags.unlinkSuccessors (g : GraphObj) (T : Nat) :
    GraphObj.KeepsFlags g (g.unlinkSuccessors T) :=
  GraphObj.KeepsFlags.foldl (fun h successor => h.removePredecessors successor T)
    (fun h x => GraphObj.KeepsFlags.removePredecessors h x T) _ g

/-- The loop over the targets of an output keeps the operator list and the
flags. -/
theorem GraphObj.KeepsFlags.bypassTargets (T output keep : Nat) :
    ∀ (L : List Nat) (g h : GraphObj), GraphObj.bypassTargets T output keep L g = some h →
      GraphObj.KeepsFlags g h := by
  intro L
  induction L with
  | nil =>
    intro g h heq
    simp only [GraphObj.bypassTargets, Option.some.injEq] at heq
    subst heq
    exact GraphObj.KeepsFlags.same g
  | cons a L ih =>
    intro g h heq
    rw [GraphObj.bypassTargets] at heq
    split at heq
    · cases heq
    · exact ((GraphObj.KeepsFlags.removePredecessors g a T).andThen
        (GraphObj.KeepsFlags.replaceInput _ a output _)).andThen (ih _ h heq)

/-- The loop over the outputs keeps the operator list and the flags. -/
theorem GraphObj.KeepsFlags.bypassOutputs (T keep : Nat) :
    ∀ (L : List Nat) (g h : GraphObj), GraphObj.bypassOutputs T keep L g = some h →
      GraphObj.KeepsFlags g h := by
  intro L
  induction L with
  | nil =>
    intro g h heq
    simp only [GraphObj.bypassOutputs, Option.some.injEq] at heq
    subst heq
    exact GraphObj.KeepsFlags.same g
  | cons a L ih =>
    intro g h heq
    rw [GraphObj.bypassOutputs] at heq
    split at heq
    · cases heq
    · next g2 hg2 =>
      exact ((GraphObj.KeepsFlags.setTensor g a _).andThen
        (GraphObj.KeepsFlags.bypassTargets T a keep _ _ g2 hg2)).andThen (ih g2 h heq)

/-- The double-transpose rewrite changes the operator list by the two
`removeOperator` calls only. -/
theorem GraphObj.eliminatePair_ops (g h : GraphObj) (T1 T2 : Nat)
    (heq : g.eliminatePair T1 T2 = some h) : h.ops = (g.ops.erase T2).erase T1 := by
  unfold GraphObj.eliminatePair at heq
  simp only [Option.bind_eq_bind, Option.bind_eq_some, Option.pure_def, Option.some.injEq] at heq
  obtain ⟨g3, h3, g4, h4, out2, _, out1, _, hh⟩ := heq
  have k3 := GraphObj.KeepsFlags.bypassOutputs T2 T1 _ _ g3 h3
  have k4 := GraphObj.KeepsFlags.bypassOutputs T1 T1 _ _ g4 h4
  have k := ((((((GraphObj.KeepsFlags.detachInputs g T1).andThen
    (GraphObj.KeepsFlags.detachInputs _ T2)).andThen k3).andThen k4).andThen
    (GraphObj.KeepsFlags.unlinkPredecessors g4 T1)).andThen
    (GraphObj.KeepsFlags.unlinkPredecessors _ T2)).andThen
    ((GraphObj.KeepsFlags.unlinkSuccessors _ T1).andThen
      (GraphObj.KeepsFlags.unlinkSuccessors _ T2))
  rw [← hh]
  simp only [GraphObj.removeOperator, GraphObj.removeTensor]
  rw [k.ops]

/-- The transpose-into-matmul rewrite changes the operator list by its
`removeOperator` call only, sets the flag of the operand it fuses into and
leaves the other flag of the Matmul as it was. -/
theorem GraphObj.fuseTranspose_ops_flags (g h : GraphObj) (M T : Nat) (first : Bool)
    (heq : g.fuseTranspose M T first = some h) :
    h.ops = g.ops.erase T ∧
    (h.opAt M).transA = (first || (g.opAt M).transA) ∧
    (h.opAt M).transB = (!first || (g.opAt M).transB) := by
  unfold GraphObj.fuseTranspose at heq
  simp only [Option.bind_eq_bind, Option.bind_eq_some, Option.pure_def, Option.some.injEq] at heq
  obtain ⟨g3, h3, out, _, hh⟩ := heq
  have k3 := GraphObj.KeepsFlags.bypassOutputs T T _ _ g3 h3
  have k := (((GraphObj.KeepsFlags.detachInputs _ T).andThen k3).andThen
    (GraphObj.KeepsFlags.unlinkPredecessors g3 T)).andThen
    (GraphObj.KeepsFlags.unlinkSuccessors _ T)
  rw [← hh]
  simp only [GraphObj.removeOperator, GraphObj.removeTensor]
  rw [k.ops, k.transA, k.transB]
  cases first <;> simp [GraphObj.setTransA, GraphObj.setTransB, GraphObj.setOp]

/-- When the double-transpose rule fires, the loop measure decreases. -/
theorem GraphObj.tryRuleA_measure (g h : GraphObj) (it cur : Nat)
    (hcur : g.ops[it]? = some cur) (heq : g.tryRuleA it cur = some (some h)) :
    h.optimize_measure it < g.optimize_measure it := by
  have hlen : h.ops.length + 1 ≤ g.ops.length := by
    unfold GraphObj.tryRuleA at heq
    split at heq
    · simp only at heq
      split at heq
      · cases heq
      · next next hnext =>
        split at heq
        · split at heq
          · split at heq
            · cases heq
            · cases heq
            · split at heq
              · cases heq
              · cases heq
              · split at heq
                · cases heq
                · next h' hpair =>
                  simp only [Option.some.injEq] at heq
                  subst heq
                  rw [g.eliminatePair_ops h' cur next hpair]
                  have hmem : next ∈ g.ops := List.getElem?_mem hnext
                  have h1 := List.length_erase_of_mem hmem
                  have h2 := List.length_erase_le cur (g.ops.erase next)
                  have h3 : 0 < g.ops.length := List.length_pos_of_mem hmem
                  omega
          · cases heq
        · cases heq
    · cases heq
  have hit : it < g.ops.length := by
    by_contra hcon
    rw [List.getElem?_eq_none (by omega)] at hcur
    cases hcur
  unfold GraphObj.optimize_measure
  rw [hcur]
  simp only
  split
  · omega
  · next c hc =>
    have hit2 : it < h.ops.length := by
      by_contra hcon
      rw [List.getElem?_eq_none (by omega)] at hc
      cases hc
    split <;> split <;> split <;> split <;> omega

/-- The fusion test succeeds only while the Matmul's flag is false. -/
theorem GraphObj.fusableSource_flag (g : GraphObj) (input : Nat) (trans : Bool) (s : Nat)
    (heq : g.fusableSource input trans = some (some s)) : trans = false := by
  unfold GraphObj.fusableSource at heq
  split at heq
  · cases heq
  · split at heq
    · next hc => exact hc.2
    · cases heq

/-- The loop measure is at most three per operator from `it` on, plus two. -/
theorem GraphObj.optimize_measure_le (g : GraphObj) (it : Nat) :
    g.optimize_measure it ≤ 3 * (g.ops.length - it) + 2 := by
  unfold GraphObj.optimize_measure
  split
  · omega
  · split <;> split <;> omega

/-- While `it` is a position of the operator list, the loop measure is at least
three per operator from `it` on. -/
theorem GraphObj.optimize_measure_ge (g : GraphObj) (it cur : Nat)
    (hcur : g.ops[it]? = some cur) :
    3 * (g.ops.length - it) ≤ g.optimize_measure it ∧ it < g.ops.length := by
  have hit : it < g.ops.length := by
    by_contra hcon
    rw [List.getElem?_eq_none (by omega)] at hcur
    cases hcur
  unfold GraphObj.optimize_measure
  rw [hcur]
  simp only
  omega

/-- When a transpose-into-matmul rewrite has been made for the operator at
`it`, the loop measure has decreased. -/
theorem GraphObj.fuseTranspose_measure (g h : GraphObj) (it cur T : Nat) (first : Bool)
    (hcur : g.ops[it]? = some cur)
    (hflag : (if first then (g.opAt cur).transA else (g.opAt cur).transB) = false)
    (heq : g.fuseTranspose cur T first = some h) :
    h.optimize_measure it < g.optimize_measure it := by
  obtain ⟨hops, hA, hB⟩ := g.fuseTranspose_ops_flags h cur T first heq
  obtain ⟨hge, hit⟩ := g.optimize_measure_ge it cur hcur
  by_cases hmem : T ∈ g.ops
  · have hlen : h.ops.length = g.ops.length - 1 := by
      rw [hops]; exact List.length_erase_of_mem hmem
    have hle := h.optimize_measure_le it
    by_cases hit2 : it < h.ops.length
    · omega
    · have hzero : h.optimize_measure it = 0 := by
        unfold GraphObj.optimize_measure
        rw [List.getElem?_eq_none (by omega)]
      omega
  · have hops2 : h.ops = g.ops := by rw [hops, List.erase_of_not_mem hmem]
    unfold GraphObj.optimize_measure
    rw [hops2, hcur]
    simp only
    rw [hA, hB]
    cases first
    · simp only [Bool.false_eq_true, if_false] at hflag
      simp [hflag]
    · simp only [if_true] at hflag
      simp [hflag]

/-- When the transpose-into-matmul rule fires, the loop measure decreases. -/
theorem GraphObj.tryRuleB_measure (g h : GraphObj) (it cur : Nat)
    (hcur : g.ops[it]? = some cur) (heq : g.tryRuleB cur = some (some h)) :
    h.optimize_measure it < g.optimize_measure it := by
  unfold GraphObj.tryRuleB at heq
  split at heq
  · split at heq
    · next inputA inputB _ _ =>
      split at heq
      · cases heq
      · next sourceA hsA =>
        split at heq
        · cases heq
        · next h' hf =>
          simp only [Option.some.injEq] at heq
          subst heq
          exact g.fuseTranspose_measure h' it cur sourceA true hcur
            (by simpa using g.fusableSource_flag inputA _ sourceA hsA) hf
      · split at heq
        · cases heq
        · next sourceB hsB =>
          split at heq
          · cases heq
          · next h' hf =>
            simp only [Option.some.injEq] at heq
            subst heq
            exact g.fuseTranspose_measure h' it cur sourceB false hcur
              (by simpa using g.fusableSource_flag inputB _ sourceB hsB) hf
        · cases heq
    · cases heq
  · cases heq

/-- Advancing `it` decreases the loop measure. -/
theorem GraphObj.optimize_measure_advance (g : GraphObj) (it cur : Nat)
    (hcur : g.ops[it]? = some cur) :
    g.optimize_measure (it + 1) < g.optimize_measure it := by
  obtain ⟨hge, hit⟩ := g.optimize_measure_ge it cur hcur
  have hle := g.optimize_measure_le (it + 1)
  omega

/-- The loop of `optimize` never reaches an iteration bound that exceeds the
loop measure. -/
theorem GraphObj.optimize_loop_ne_none :
    ∀ (fuel it : Nat) (g : GraphObj), g.optimize_measure it < fuel →
      GraphObj.optimize_loop fuel it g ≠ none := by
  intro fuel
  induction fuel with
  | zero => intro it g h; omega
  | succ fuel ih =>
    intro it g hm
    rw [GraphObj.optimize_loop]
    split
    · simp
    · next cur hcur =>
      split
      · simp
      · next h hA =>
        exact ih it h (by have := g.tryRuleA_measure h it cur hcur hA; omega)
      · split
        · simp
        · next h hB =>
          exact ih it h (by have := g.tryRuleB_measure h it cur hcur hB; omega)
        · exact ih (it + 1) g (by have := g.optimize_measure_advance it cur hcur; omega)

/-- `optimize` always comes to an end in the model: the result is never the
"iteration bound reached" value. -/
theorem GraphObj.optimize_total (g : GraphObj) : g.optimize ≠ none := by
  have hloop := GraphObj.optimize_loop_ne_none (3 * g.ops.length + 3) 0 g
    (by have := g.optimize_measure_le 0; omega)
  unfold GraphObj.optimize
  split
  · next heq => exact absurd heq hloop
  · simp
  · next h _ =>
    obtain ⟨r, hr⟩ := h.topo_sort_total
    rw [hr]
    simp

/-! ## Further properties of the allocator -/

/-- On an empty registry `free` merges nothing and decrements `used` by exactly
the rounded size. -/
theorem Allocator.free_used_empty_registry (a : Allocator) (addr size : Nat)
    (hptr : a.ptr = none) (hreg : a.freeBlocks = []) :
    (a.free addr size).map (fun a1 => a1.used) =
      some ((a.used + SIZE_MOD - a.getAlignedSize size) % SIZE_MOD) := by
  simp [Allocator.free, hptr, hreg, FreeBlocks.lower_bound, FreeBlocks.emplace]

/-- Claim C21 (code at the failing input): after `alloc(8)`, `alloc(8)`,
`free(0, 8)` the registry is `[(0, 8)]` and `used = 8`; `free(8, 8)` merges with
the preceding block and leaves `used = 2^64 - 8` instead of `8 - 8 = 0`.  After
`alloc(8)` three times and `free(8, 8)` (`used = 16`), `free(0, 8)` merges with
the following block and leaves `used = 0` instead of 8.  In both cases the size
of the merged block, 16, is subtracted. -/
theorem Allocator.free_subtracts_merged_size :
    Allocator.new.getAlignedSize 8 = 8 ∧
    Allocator.new.run [.alloc 8, .alloc 8, .free 0 8] =
      some ([0, 8], { used := 8, peak := 16, ptr := none, alignment := 8,
                      freeBlocks := [(0, 8)] }) ∧
    Allocator.free { used := 8, peak := 16, ptr := none, alignment := 8,
                     freeBlocks := [(0, 8)] } 8 8 =
      some { used := 18446744073709551608, peak := 16, ptr := none, alignment := 8,
             freeBlocks := [(0, 16)] } ∧
    Allocator.new.run [.alloc 8, .alloc 8, .alloc 8, .free 8 8] =
      some ([0, 8, 16], { used := 16, peak := 24, ptr := none, alignment := 8,
                          freeBlocks := [(8, 8)] }) ∧
    Allocator.free { used := 16, peak := 24, ptr := none, alignment := 8,
                     freeBlocks := [(8, 8)] } 0 8 =
      some { used := 0, peak := 24, ptr := none, alignment := 8,
             freeBlocks := [(0, 16)] } := by
  decide

/-- Claim C23 (code at the failing input): on a fresh allocator the calls
`alloc(8)`, `alloc(8)`, `free(0, 8)`, `alloc(8)` return the addresses 0, 8 and
8: the last `alloc` hands out the block `[8, 16)` that the second `alloc`
returned and that was never freed.  With the sizes of the specification,
`alloc(100)`, `alloc(200)`, `free(0, 100)`, `alloc(90)` return 0, 104 and 200,
and the live ranges `[104, 304)` and `[200, 296)` overlap. -/
theorem Allocator.live_blocks_overlap :
    (Allocator.new.run [.alloc 8, .alloc 8, .free 0 8, .alloc 8]).map (fun r => r.1) =
      some [0, 8, 8] ∧
    rangesOverlap (8, Allocator.new.getAlignedSize 8) (8, Allocator.new.getAlignedSize 8) = true ∧
    (Allocator.new.run [.alloc 100, .alloc 200, .free 0 100, .alloc 90]).map (fun r => r.1) =
      some [0, 104, 200] ∧
    rangesOverlap (104, Allocator.new.getAlignedSize 200)
      (200, Allocator.new.getAlignedSize 90) = true := by
  decide

/-! ## Further properties of the scheduler and the rewriter -/

/-- When the loop of `topo_sort` ends normally, its vector `sorted` is a
rearrangement of `ops`. -/
theorem GraphObj.topo_loop_some_perm (g : GraphObj) (l : List Nat)
    (h : g.topo_loop g.ops.length [] [] = some (some l)) : l.Perm g.ops := by
  obtain ⟨hinv, hlen⟩ := g.topo_loop_some _ _ _ l (TopoInv.init g) h
  exact (List.subperm_of_subset hinv.nodup hinv.sub).perm_of_length_le hlen

/-- Claim C24: whenever `topo_sort` returns true, the operator sequence after the
call is a permutation of the operator sequence before it: same length, and
every operator occurs as often as before. -/
theorem GraphObj.topo_sort_perm (g g' : GraphObj) (h : g.topo_sort = some (true, g')) :
    g'.ops.Perm g.ops ∧ g'.ops.length = g.ops.length ∧
    ∀ op, g'.ops.count op = g.ops.count op := by
  have hperm : g'.ops.Perm g.ops := by
    unfold GraphObj.topo_sort at h
    split at h
    · simp only [Option.some.injEq, Prod.mk.injEq, true_and] at h
      subst h
      exact List.Perm.refl _
    · split at h
      · cases h
      · simp at h
      · next l hl =>
        simp only [Option.some.injEq, Prod.mk.injEq, true_and] at h
        subst h
        exact g.topo_loop_some_perm l hl
  exact ⟨hperm, hperm.length_eq, fun op => hperm.count_eq op⟩

/-- Instance of `topo_sort_perm`: the chain built in the order `12, 11, 10` is
sorted to `[10, 11, 12]`. -/
theorem GraphObj.topo_sort_perm_witness :
    exampleChain.topo_sort = some (true, { exampleChain with ops := [10, 11, 12], sorted := true }) ∧
    ([10, 11, 12] : List Nat).Perm exampleChain.ops :=
  ⟨rfl, (GraphObj.topo_sort_perm exampleChain
    { exampleChain with ops := [10, 11, 12], sorted := true } rfl).1⟩

/-- Claim C22 (code at the failing input): for `X = [5,4]`, permutation `[1,0]`
and `Z = [5,4]`, before the rewrite the Transpose yields `[4,5]` and the Matmul
on `([4,5], [5,4])` yields `[4,4]`; `optimize` re-points the Matmul to `X` and
sets `transA`, and `MatmulObj::inferShape` on `([5,4], [5,4])` then yields
`[5,5]`. -/
theorem GraphObj.fusion_changes_inferred_shape :
    exampleFuseShapes.checkValid = some true ∧
    TransposeObj.inferShape [1, 0] (exampleFuseShapes.inputDims 10) = .ok [[4, 5]] ∧
    exampleFuseShapes.inputDims 11 = [[4, 5], [5, 4]] ∧
    MatmulObj.inferShape (exampleFuseShapes.inputDims 11) = .ok [[4, 4]] ∧
    ((exampleFuseShapes.optimize.bind id).map fun g =>
      ((g.opAt 11).transA, g.inputDims 11, MatmulObj.inferShape (g.inputDims 11))) =
      some (true, [[5, 4], [5, 4]], .ok [[5, 5]]) :=
  ⟨rfl, rfl, rfl, rfl, rfl⟩

/-- On `M = Matmul(T1(X), T2(Z))` with the two independent Transposes adjacent
in the operator list, for all permutations of one rank (at least 2) whose last
two entries are swapped, `optimize` removes both Transposes and leaves the
Matmul reading `X` twice. -/
theorem GraphObj.optimize_independent_family (perm1 perm2 : List Int)
    (hr : 2 ≤ perm1.length) (hr31 : perm1.length < 2147483648)
    (hlen : perm2.length = perm1.length)
    (h1 : perm1[perm1.length - 1]? = some ((perm1.length - 2 : Nat) : Int))
    (h2 : perm1[perm1.length - 2]? = some ((perm1.length - 1 : Nat) : Int))
    (h3 : perm2[perm1.length - 1]? = some ((perm1.length - 2 : Nat) : Int))
    (h4 : perm2[perm1.length - 2]? = some ((perm1.length - 1 : Nat) : Int)) :
    ∃ g', (exampleIndependentTransposes perm1 perm2).optimize = some (some g') ∧
      g'.ops = [12] ∧ g'.tensors = [0, 1, 4] ∧ (g'.opAt 12).inputs = [0, 0] := by
  have hs1 := swapsLastTwo_of_swap perm1 hr hr31 h1 h2
  have hs2 : swapsLastTwo perm2 perm1.length = some true := by
    have := swapsLastTwo_of_swap perm2 (by omega) (by omega) (by rw [hlen]; exact h3)
      (by rw [hlen]; exact h4)
    rw [hlen] at this
    exact this
  simp [GraphObj.optimize, GraphObj.optimize_loop, GraphObj.tryRuleA, GraphObj.topo_sort,
    GraphObj.tryRuleB, exampleIndependentTransposes, hs1, hs2, hlen,
    GraphObj.fusableSource,
    GraphObj.eliminatePair, GraphObj.setOp, GraphObj.detachInputs,
    GraphObj.removeTarget, GraphObj.setTensor, GraphObj.bypassOutputs,
    GraphObj.bypassTargets, GraphObj.setSource, GraphObj.removePredecessors,
    GraphObj.replaceInput, GraphObj.unlinkPredecessors, GraphObj.unlinkSuccessors,
    GraphObj.removeSuccessors, GraphObj.removeTensor, GraphObj.removeOperator,
    OperatorObj.blank]

/-- Claim C25 (code at the failing input): on the sorted, valid graph
`M = Matmul(T1(X), T2(Z))` with permutations `[1,0]`, where `T2` reads `Z`
(tensor 1) and not the output of `T1` (tensor 2), `optimize` removes `T1` and
`T2` under the double-transpose rule and leaves `M` with inputs `[X, X]`: `Z` has
no consumer any more. -/
theorem GraphObj.optimize_merges_independent_transposes :
    (exampleIndependentTransposes [1, 0] [1, 0]).checkValid = some true ∧
    ((exampleIndependentTransposes [1, 0] [1, 0]).opAt 10).outputs = [2] ∧
    ((exampleIndependentTransposes [1, 0] [1, 0]).opAt 11).inputs = [1] ∧
    (((exampleIndependentTransposes [1, 0] [1, 0]).optimize.bind id).map
      fun g => (g.ops, g.tensors, (g.opAt 12).inputs, (g.tensorAt 1).targets)) =
      some ([12], [0, 1, 4], [0, 0], []) :=
  ⟨rfl, rfl, rfl, rfl⟩

/-! ## The `sorted` flag on graphs built through the interface -/

end infini
